import Mathlib

/-!
The terminal client of the falling-block game: a shallow embedding of
`client/tetris_ui.go`.

* Every function of the file becomes a Lean function that returns the calls it
  makes, in program order, as a list of `Op` (calls into termbox, channel
  operations, WaitGroup operations, goroutine starts, the store to `gameOver`).
  Values that come from outside (what `PollEvent` returned, what `Init`
  returned, which snapshots arrive on the stream) are arguments.
* The meaning of the calls is given separately: `Terminal.apply` for the
  termbox cell buffer, `TetrisUi.exec` for the fields of the `TetrisUi` struct.
* The interleaving of the goroutines started by `StartGame` is the step
  function `Sys.step`, one atomic statement of one goroutine per step.

Go `int` is embedded as `Int`: all integer arithmetic of the file is on screen
coordinates, and `termbox.SetCell` drops a write outside the terminal, whose
size is itself a Go `int`, so a write that is carried out has coordinates
below that size.  Calls to the zap logger are not recorded.
-/

namespace TetrisClient

/-! ## termbox -/

/-- The colour attribute `termbox.Attribute`. -/
abbrev Attribute := Nat

/-- The colour `termbox.ColorDefault`. -/
def ColorDefault : Attribute := 0
/-- The colour `termbox.ColorBlack`. -/
def ColorBlack : Attribute := 1
/-- The colour `termbox.ColorWhite`. -/
def ColorWhite : Attribute := 8

/-- The input mode `termbox.InputEsc`. -/
def InputEsc : Nat := 1

/-- The kinds of `termbox.Event`. -/
inductive EventType
  | EventKey
  | EventResize
  | EventMouse
  | EventError
  | EventInterrupt
  | EventRaw
  | EventNone
  deriving DecidableEq, Repr

/-- The fields of `termbox.Event` that the client reads (`Type`, `Key`, `Ch`). -/
structure Event where
  EvType : EventType
  Key : Nat
  Ch : Char
  deriving DecidableEq, Repr

/-! ## Package `shared` and the session -/

/-- Values of `shared.MoveType`. -/
abbrev MoveType := Nat

/-- What `tetris_ui.go` uses of package `shared`, whose source is not part of
the file: the conversion `shared.MoveType(ch)` from a rune, the six move
constants and the two board size constants. They are parameters. -/
structure Shared where
  MoveTypeOf : Char → MoveType
  ROTATELEFT : MoveType
  ROTATERIGHT : MoveType
  MOVELEFT : MoveType
  MOVERIGHT : MoveType
  DROP : MoveType
  DOWN : MoveType
  BOARDSIZEX : Int
  BOARDSIZEY : Int

/-- The struct `Pixel`. -/
structure Pixel where
  X : Int
  Y : Int
  Color : Attribute
  deriving DecidableEq, Repr

/-- One board snapshot received on `BoardUpdateChannel`, with the fields the
renderer reads. -/
structure GameState where
  Pixels : List Pixel
  NextPiece : List Pixel
  Pieces : Int
  Lines : Int
  GameOver : Bool
  deriving DecidableEq, Repr

/-- A Go channel: buffered values oldest first, capacity, closed flag. -/
structure Chan (α : Type) where
  buf : List α
  cap : Nat
  closed : Bool
  deriving DecidableEq, Repr

/-- The channel `make(chan T, cap)`. -/
def Chan.make {α : Type} (cap : Nat) : Chan α := ⟨[], cap, false⟩

/-- The part of `ClientSession` that the user interface uses. For
`BoardUpdateChannel` the buffer holds the snapshots still to be received, for
`MoveChannel` the moves sent so far. -/
structure ClientSession where
  PlayerName : String
  BoardUpdateChannel : Chan GameState
  MoveChannel : Chan MoveType
  deriving DecidableEq, Repr

/-- The struct `shared.Board`. -/
structure Board where
  Height : Int
  Width : Int
  deriving DecidableEq, Repr

/-- A `sync.WaitGroup`: its counter. -/
structure WaitGroup where
  counter : Int
  deriving DecidableEq, Repr

/-- Why a goroutine stops before the end of its calls: a Go run-time panic, or
a call that does not return in the current state. -/
inductive Halt
  | panic (msg : String)
  | blocked
  deriving DecidableEq, Repr

/-- The call `wg.Add(delta)`: panics when the counter would go negative. -/
def WaitGroup.Add (wg : WaitGroup) (delta : Int) : Except Halt WaitGroup :=
  if wg.counter + delta < 0 then .error (.panic "sync: negative WaitGroup counter")
  else .ok ⟨wg.counter + delta⟩

/-- The call `wg.Done()`, which is `wg.Add(-1)`. -/
def WaitGroup.Done (wg : WaitGroup) : Except Halt WaitGroup := wg.Add (-1)

/-- The call `wg.Wait()` returns exactly when the counter is zero. -/
def WaitGroup.Wait (wg : WaitGroup) : Except Halt WaitGroup :=
  if wg.counter = 0 then .ok wg else .error .blocked

/-- The struct `TetrisUi` (without the logger). -/
structure TetrisUi where
  eventChannel : Chan Event
  playerSession : ClientSession
  board : Board
  wg : WaitGroup
  gameOver : Bool
  deriving DecidableEq, Repr

/-- The three goroutines started by `StartGame`. -/
inductive Task
  | readKey
  | listenKeyPress
  | ListenToBoardUpdates
  deriving DecidableEq, Repr

/-- One call made by the code, as recorded in program order. -/
inductive Op
  | Init
  | Close
  | SetCell (x y : Int) (ch : Char) (fg bg : Attribute)
  | Flush
  | PollEvent
  | SetInputMode (mode : Nat)
  | go (t : Task)
  | wgDone
  | wgWait
  | setGameOver
  | closeEventChannel
  | closeBoardUpdateChannel
  | sendEvent (ev : Event)
  | sendMove (m : MoveType)
  deriving DecidableEq, Repr

/-! ## Constants of the file -/

def originXBoard : Int := 2
def originYBoard : Int := 10
def originXNextPiece : Int := 15
def originYNextPiece : Int := 6

def HORIZONTAL : Char := '═'
def VERTICAL : Char := '║'
def TOPLEFT : Char := '╔'
def TOPRIGHT : Char := '╗'
def BOTTOMLEFT : Char := '╚'
def BOTTOMRIGHT : Char := '╝'

/-! ## The functions of the file -/

/-- The values taken by `i` in `for i := lo; i < hi; i++`. -/
def loopRange (lo hi : Int) : List Int :=
  (List.range (hi - lo).toNat).map (fun (k : Nat) => lo + (k : Int))

/-- The loop `for i := lo; i < hi; i++ { body }`. -/
def forLoop (lo hi : Int) (body : Int → List Op) : List Op :=
  ((loopRange lo hi).map body).flatten

/-- The function `NewTetrisUi`. -/
def NewTetrisUi (sh : Shared) (cs : ClientSession) : TetrisUi :=
  -- wg := sync.WaitGroup{}; wg.Add(1)
  let wg : WaitGroup := ⟨0⟩
  let wg : WaitGroup := ⟨wg.counter + 1⟩
  { eventChannel := Chan.make 10
    playerSession := cs
    board := { Height := sh.BOARDSIZEY, Width := sh.BOARDSIZEX }
    wg := wg
    gameOver := false }

/-- The method `signalEndOfGame`. -/
def signalEndOfGame : List Op := [Op.wgDone]

/-- The method `awaitEndOfGame`. -/
def awaitEndOfGame : List Op := [Op.wgWait]

/-- The method `drawBoardPixel`. -/
def drawBoardPixel (p : Pixel) : List Op :=
  [Op.SetCell (originXBoard + 2 * p.X) (originYBoard + p.Y) ' ' p.Color p.Color,
   Op.SetCell (originXBoard + (2 * p.X + 1)) (originYBoard + p.Y) ' ' p.Color p.Color]

/-- The method `drawNextPiecePixel`. -/
def drawNextPiecePixel (p : Pixel) : List Op :=
  [Op.SetCell (originXNextPiece + 2 * p.X) (originYNextPiece + p.Y) ' ' p.Color p.Color,
   Op.SetCell (originXNextPiece + (2 * p.X + 1)) (originYNextPiece + p.Y) ' ' p.Color p.Color]

/-- The loop of `writeMessage` over the runes of the message, `x` advancing by
one per rune. -/
def writeRunes : List Char → Int → Int → Attribute → List Op
  | [], _, _, _ => []
  | char :: rest, x, y, color =>
      Op.SetCell x y char ColorBlack color :: writeRunes rest (x + 1) y color

/-- The method `writeMessage`. -/
def writeMessage (message : String) (x y : Int) (color : Attribute) : List Op :=
  writeRunes message.toList x y color

/-- The function `drawBorder`. -/
def drawBorder (leftEdge topEdge width height : Int) : List Op :=
  [Op.SetCell leftEdge topEdge TOPLEFT ColorDefault ColorDefault,
   Op.SetCell (leftEdge + width) topEdge TOPRIGHT ColorDefault ColorDefault]
  ++ forLoop (leftEdge + 1) width (fun x =>
      [Op.SetCell x topEdge HORIZONTAL ColorDefault ColorDefault,
       Op.SetCell x (topEdge + height) HORIZONTAL ColorDefault ColorDefault])
  ++ forLoop (topEdge + 1) height (fun y =>
      [Op.SetCell leftEdge y VERTICAL ColorDefault ColorDefault,
       Op.SetCell (leftEdge + width) y VERTICAL ColorDefault ColorDefault])
  ++ [Op.SetCell leftEdge (topEdge + height) BOTTOMLEFT ColorDefault ColorDefault,
      Op.SetCell (leftEdge + width) (topEdge + height) BOTTOMRIGHT ColorDefault ColorDefault]

/-- The body of the loop of `ListenToBoardUpdates` for a snapshot that is not
game over (lines 95 to 118): clear the board, clear the preview, write the
status lines, draw the pixels, draw the next piece, flush. -/
def renderFrame (r : TetrisUi) (gm : GameState) : List Op :=
  forLoop 0 r.board.Width (fun x =>
    forLoop 0 r.board.Height (fun y =>
      drawBoardPixel { X := x, Y := y, Color := ColorDefault }))
  ++ forLoop 0 4 (fun x =>
    forLoop 0 4 (fun y =>
      drawNextPiecePixel { X := x, Y := y, Color := ColorDefault }))
  ++ writeMessage ("player: " ++ r.playerSession.PlayerName) 2 3 ColorWhite
  ++ writeMessage ("pieces: " ++ toString gm.Pieces) 2 4 ColorWhite
  ++ writeMessage ("lines: " ++ toString gm.Lines) 2 5 ColorWhite
  ++ writeMessage "next piece:" 2 6 ColorWhite
  ++ (gm.Pixels.map drawBoardPixel).flatten
  ++ (gm.NextPiece.map drawNextPiecePixel).flatten
  ++ [Op.Flush]

/-- The game-over branch of `ListenToBoardUpdates` (lines 85 to 92), up to the
`break`. -/
def gameOverBranch : List Op :=
  [Op.setGameOver]
  ++ writeMessage "GAME OVER, PRESS A KEY" 2 1 ColorWhite
  ++ [Op.Flush]
  ++ signalEndOfGame
  ++ [Op.closeEventChannel, Op.closeBoardUpdateChannel]

/-- The method `ListenToBoardUpdates`, on the snapshots that the stream
delivers, in arrival order, until it is closed and drained. -/
def ListenToBoardUpdates (r : TetrisUi) : List GameState → List Op
  | [] => []
  | gm :: rest =>
      if gm.GameOver then gameOverBranch
      else renderFrame r gm ++ ListenToBoardUpdates r rest

/-- The method `readKey`. `ev` is the event returned by `termbox.PollEvent`,
`gameOver` the value of `r.gameOver` when it is read. -/
def readKey (gameOver : Bool) (ev : Event) : List Op :=
  Op.PollEvent ::
    (match ev.EvType with
     | .EventKey => if !gameOver then [Op.sendEvent ev] else []
     | _ => [])

/-- The method `onKeyPress`. Each of the six cases falls through to the send
in the case of `DOWN`, which falls through to the empty default case. -/
def onKeyPress (sh : Shared) (event : Event) : List Op :=
  let moveType := sh.MoveTypeOf event.Ch
  if moveType = sh.ROTATELEFT then [Op.sendMove moveType]
  else if moveType = sh.ROTATERIGHT then [Op.sendMove moveType]
  else if moveType = sh.MOVELEFT then [Op.sendMove moveType]
  else if moveType = sh.MOVERIGHT then [Op.sendMove moveType]
  else if moveType = sh.DROP then [Op.sendMove moveType]
  else if moveType = sh.DOWN then [Op.sendMove moveType]
  else []

/-- One iteration of the loop of `listenKeyPress` as seen from outside: the
event received from `eventChannel`, and for the call of `readKey` that follows
the event that `PollEvent` returned and the value of `gameOver` that was
read. -/
structure Turn where
  e : Event
  polled : Event
  gameOver : Bool
  deriving DecidableEq, Repr

/-- The method `listenKeyPress`, on the iterations of its loop. -/
def listenKeyPress (sh : Shared) : List Turn → List Op
  | [] => []
  | t :: rest => onKeyPress sh t.e ++ readKey t.gameOver t.polled ++ listenKeyPress sh rest

/-- The error value behind a Go `error`, by its text. -/
abbrev GoError := String

/-- Modelled from the spec: `NewClientSystemError` is declared elsewhere in
package `client`; the spec describes its result as a distinguishable system
error that carries the underlying cause. -/
structure ClientSystemError where
  message : String
  cause : GoError
  deriving DecidableEq, Repr

/-- Modelled from the spec: the constructor `NewClientSystemError`, which keeps
the message and the cause. -/
def NewClientSystemError (message : String) (err : GoError) : ClientSystemError :=
  { message := message, cause := err }

/-- The method `StartGame`. `initErr` is what `termbox.Init` returned (`none`
for nil). The result is the calls made, the deferred `termbox.Close` last, and
the returned error (`none` for nil). -/
def StartGame (initErr : Option GoError) : List Op × Option ClientSystemError :=
  match initErr with
  | some err => ([Op.Init], some (NewClientSystemError "unable to initialise termbox" err))
  | none =>
      ([Op.Init, Op.go Task.readKey, Op.go Task.listenKeyPress,
        Op.go Task.ListenToBoardUpdates]
       ++ drawBorder 0 0 35 30
       ++ writeMessage "tetris://" 2 2 ColorWhite
       ++ [Op.Flush]
       ++ awaitEndOfGame
       ++ [Op.PollEvent, Op.Flush, Op.SetInputMode InputEsc]
       ++ [Op.Close],
       none)

/-! ## Meaning of the calls -/

/-- One cell of the terminal: glyph, foreground, background. -/
structure Cell where
  Ch : Char
  Fg : Attribute
  Bg : Attribute
  deriving DecidableEq, Repr

/-- The termbox cell buffers: the size of the terminal, the back buffer
written by `SetCell` and the front buffer shown on the terminal. The cells of
the terminal are the `(a, b)` with `0 ≤ a < width` and `0 ≤ b < height`; the
two functions are never changed at other coordinates. The size stays fixed. -/
structure Terminal where
  width : Int
  height : Int
  back : Int → Int → Cell
  front : Int → Int → Cell

/-- The effect of one call on the terminal. `termbox.SetCell` returns without
writing when `x < 0 || x >= width`, and when `y < 0 || y >= height`; otherwise
it writes one cell of the back buffer. `Flush` shows the back buffer. Other
calls leave the cells. -/
def Terminal.apply (t : Terminal) : Op → Terminal
  | .SetCell x y ch fg bg =>
      if x < 0 ∨ x ≥ t.width then t
      else if y < 0 ∨ y ≥ t.height then t
      else { t with back := fun a b => if a = x ∧ b = y then ⟨ch, fg, bg⟩ else t.back a b }
  | .Flush => { t with front := t.back }
  | _ => t

/-- The effect of a sequence of calls on the terminal. -/
def Terminal.run (t : Terminal) (ops : List Op) : Terminal :=
  ops.foldl Terminal.apply t

/-- The effect of one call on the fields of the `TetrisUi` struct. A send on
`MoveChannel` is taken by the session and recorded in the buffer of that
channel; calls into termbox and goroutine starts leave the struct. -/
def TetrisUi.exec (r : TetrisUi) : Op → Except Halt TetrisUi
  | .setGameOver => .ok { r with gameOver := true }
  | .wgDone =>
      match r.wg.Done with
      | .ok wg => .ok { r with wg := wg }
      | .error h => .error h
  | .wgWait =>
      match r.wg.Wait with
      | .ok wg => .ok { r with wg := wg }
      | .error h => .error h
  | .closeEventChannel =>
      if r.eventChannel.closed then .error (.panic "close of closed channel")
      else .ok { r with eventChannel := { r.eventChannel with closed := true } }
  | .closeBoardUpdateChannel =>
      if r.playerSession.BoardUpdateChannel.closed then
        .error (.panic "close of closed channel")
      else .ok { r with playerSession := { r.playerSession with
                  BoardUpdateChannel := { r.playerSession.BoardUpdateChannel with
                    closed := true } } }
  | .sendEvent ev =>
      if r.eventChannel.closed then .error (.panic "send on closed channel")
      else if r.eventChannel.buf.length < r.eventChannel.cap then
        .ok { r with eventChannel := { r.eventChannel with
                buf := r.eventChannel.buf ++ [ev] } }
      else .error .blocked
  | .sendMove m =>
      if r.playerSession.MoveChannel.closed then .error (.panic "send on closed channel")
      else .ok { r with playerSession := { r.playerSession with
                  MoveChannel := { r.playerSession.MoveChannel with
                    buf := r.playerSession.MoveChannel.buf ++ [m] } } }
  | _ => .ok r

/-- The effect of a sequence of calls on the struct, stopping at the first call
that panics or does not return. -/
def TetrisUi.run (r : TetrisUi) : List Op → Except Halt TetrisUi
  | [] => .ok r
  | op :: ops =>
      match r.exec op with
      | .ok r1 => TetrisUi.run r1 ops
      | .error h => .error h

/-- The moves sent on `MoveChannel` by a sequence of calls, in order. -/
def movesSent (ops : List Op) : List MoveType :=
  ops.filterMap (fun op => match op with
    | .sendMove m => some m
    | _ => none)

/-- The colour of the last pixel of the list at position `(x, y)`, or
`ColorDefault` when the list has no pixel there. -/
def lastColorAt (pixels : List Pixel) (x y : Int) : Attribute :=
  match (pixels.filter (fun p => p.X = x ∧ p.Y = y)).getLast? with
  | some p => p.Color
  | none => ColorDefault

/-- The six recognised moves. -/
def recognised (sh : Shared) (m : MoveType) : Bool :=
  m = sh.ROTATELEFT ∨ m = sh.ROTATERIGHT ∨ m = sh.MOVELEFT ∨ m = sh.MOVERIGHT
    ∨ m = sh.DROP ∨ m = sh.DOWN

/-! ## The goroutines side by side -/

/-- Where a call of `readKey` stands. -/
inductive ReadKeyPc
  /-- Before `termbox.PollEvent()`. -/
  | poll
  /-- A key event was polled; before the test `!r.gameOver`. -/
  | check (ev : Event)
  /-- The flag `gameOver` was read as false; before `r.eventChannel <- ev`. -/
  | send (ev : Event)
  /-- The call has returned. -/
  | ret
  deriving DecidableEq, Repr

/-- Where the goroutine `listenKeyPress` stands. -/
inductive ListenPc
  /-- At `range r.eventChannel`. -/
  | recv
  /-- Event `e` was received; before `r.onKeyPress(e)`. -/
  | onKey (e : Event)
  /-- Inside the call `r.readKey()` of the loop body. -/
  | inReadKey (pc : ReadKeyPc)
  /-- The loop has ended. -/
  | exited
  deriving DecidableEq, Repr

/-- Where the goroutine `ListenToBoardUpdates` stands: at the receive of its
loop, or before one of the statements of the game-over branch. -/
inductive RenderPc
  | recv
  | setFlag
  | draw
  | flush
  | signal
  | closeEvents
  | closeBoard
  | exited
  deriving DecidableEq, Repr

/-- The state shared by the three goroutines started by `StartGame`.
`input` holds the events that the terminal will deliver to `PollEvent`, oldest
first; the buffer of `BoardUpdateChannel` holds the snapshots that the session
will deliver. `enqueued` and `dequeued` count the sends and receives on
`eventChannel` that were carried out. `crashed` holds the message of a
run-time panic. The terminal cells are not part of this state. -/
structure Sys where
  ui : TetrisUi
  input : List Event
  poller : ReadKeyPc
  listener : ListenPc
  renderer : RenderPc
  enqueued : Nat
  dequeued : Nat
  crashed : Option String
  deriving DecidableEq, Repr

/-- The goroutines: `readKey` as started by `StartGame`, `listenKeyPress`,
`ListenToBoardUpdates`. -/
inductive Thread
  | poller
  | listener
  | renderer
  deriving DecidableEq, Repr

/-- One statement of a call of `readKey` that stands at `pc`. `none` when the
call cannot move (no event to poll, channel full, or returned). -/
def Sys.readKeyStep (s : Sys) : ReadKeyPc → Option (Sys × ReadKeyPc)
  | .poll =>
      match s.input with
      | [] => none
      | ev :: rest =>
          some ({ s with input := rest },
            if ev.EvType = EventType.EventKey then .check ev else .ret)
  | .check ev => some (s, if !s.ui.gameOver then .send ev else .ret)
  | .send ev =>
      match s.ui.exec (.sendEvent ev) with
      | .ok ui => some ({ s with ui := ui, enqueued := s.enqueued + 1 }, .ret)
      | .error (.panic msg) => some ({ s with crashed := some msg }, .send ev)
      | .error .blocked => none
  | .ret => none

/-- One statement of `listenKeyPress`: receive from `eventChannel` (the loop
ends when the channel is closed and drained), `onKeyPress`, then the statements
of `readKey`, after which the loop is back at the receive. -/
def Sys.stepListener (sh : Shared) (s : Sys) : Option Sys :=
  match s.listener with
  | .recv =>
      match s.ui.eventChannel.buf with
      | e :: rest =>
          some { s with
            ui := { s.ui with eventChannel := { s.ui.eventChannel with buf := rest } }
            dequeued := s.dequeued + 1
            listener := .onKey e }
      | [] => if s.ui.eventChannel.closed then some { s with listener := .exited } else none
  | .onKey e =>
      match s.ui.run (onKeyPress sh e) with
      | .ok ui => some { s with ui := ui, listener := .inReadKey .poll }
      | .error (.panic msg) => some { s with crashed := some msg }
      | .error .blocked => none
  | .inReadKey pc =>
      match s.readKeyStep pc with
      | some (s1, .ret) => some { s1 with listener := .recv }
      | some (s1, pc1) => some { s1 with listener := .inReadKey pc1 }
      | none => none
  | .exited => none

/-- A statement of the renderer that is one call `op` on the struct. -/
def Sys.execRenderer (s : Sys) (op : Op) (next : RenderPc) : Option Sys :=
  match s.ui.exec op with
  | .ok ui => some { s with ui := ui, renderer := next }
  | .error (.panic msg) => some { s with crashed := some msg }
  | .error .blocked => none

/-- One statement of `ListenToBoardUpdates`: receive a snapshot (a snapshot
that is not game over is rendered and the loop is back at the receive), or the
next statement of the game-over branch. -/
def Sys.stepRenderer (s : Sys) : Option Sys :=
  match s.renderer with
  | .recv =>
      match s.ui.playerSession.BoardUpdateChannel.buf with
      | gm :: rest =>
          some { s with
            ui := { s.ui with playerSession := { s.ui.playerSession with
                      BoardUpdateChannel := { s.ui.playerSession.BoardUpdateChannel with
                        buf := rest } } }
            renderer := if gm.GameOver then .setFlag else .recv }
      | [] =>
          if s.ui.playerSession.BoardUpdateChannel.closed then
            some { s with renderer := .exited }
          else none
  | .setFlag => s.execRenderer .setGameOver .draw
  | .draw => some { s with renderer := .flush }
  | .flush => some { s with renderer := .signal }
  | .signal => s.execRenderer .wgDone .closeEvents
  | .closeEvents => s.execRenderer .closeEventChannel .closeBoard
  | .closeBoard => s.execRenderer .closeBoardUpdateChannel .exited
  | .exited => none

/-- One step of the program: the goroutine `th` carries out its next
statement. `none` when it cannot move; after a panic nothing moves. -/
def Sys.step (sh : Shared) (s : Sys) (th : Thread) : Option Sys :=
  if s.crashed.isSome then none
  else
    match th with
    | .poller => (s.readKeyStep s.poller).map (fun p => { p.1 with poller := p.2 })
    | .listener => s.stepListener sh
    | .renderer => s.stepRenderer

/-- The steps of a schedule, one after the other. -/
def Sys.runSchedule (sh : Shared) : Sys → List Thread → Option Sys
  | s, [] => some s
  | s, th :: rest =>
      match s.step sh th with
      | some s1 => Sys.runSchedule sh s1 rest
      | none => none

/-- The state right after `StartGame` has started the three goroutines. -/
def Sys.init (sh : Shared) (cs : ClientSession) (input : List Event) : Sys :=
  { ui := NewTetrisUi sh cs
    input := input
    poller := .poll
    listener := .recv
    renderer := .recv
    enqueued := 0
    dequeued := 0
    crashed := none }

/-! ## Sample values -/

/-- A sample of package `shared`: six letters as moves, a board of 10 by 20. -/
def sampleShared : Shared :=
  { MoveTypeOf := fun c => c.toNat
    ROTATELEFT := 'q'.toNat
    ROTATERIGHT := 'w'.toNat
    MOVELEFT := 'a'.toNat
    MOVERIGHT := 'd'.toNat
    DROP := 's'.toNat
    DOWN := 'x'.toNat
    BOARDSIZEX := 10
    BOARDSIZEY := 20 }

/-- A key event for the rune `c`. -/
def keyEvent (c : Char) : Event := { EvType := .EventKey, Key := 0, Ch := c }

/-- A snapshot with game over set. -/
def gameOverSnapshot : GameState :=
  { Pixels := [], NextPiece := [], Pieces := 0, Lines := 0, GameOver := true }

/-- A snapshot that is not game over, with no pixels. -/
def emptySnapshot : GameState :=
  { Pixels := [], NextPiece := [], Pieces := 3, Lines := 1, GameOver := false }

/-- A session whose stream will deliver the given snapshots. -/
def sampleSession (stream : List GameState) : ClientSession :=
  { PlayerName := "ann"
    BoardUpdateChannel := { buf := stream, cap := 0, closed := false }
    MoveChannel := { buf := [], cap := 0, closed := false } }

/-- A user interface struct as `NewTetrisUi` returns it. -/
def sampleUi : TetrisUi := NewTetrisUi sampleShared (sampleSession [])

/-- The schedule of the race: `readKey` polls a key and reads `gameOver` as
false, the renderer receives a game-over snapshot and runs its branch up to
and including `close(r.eventChannel)`, then `readKey` sends. -/
def raceSchedule : List Thread :=
  [.poller, .poller,
   .renderer, .renderer, .renderer, .renderer, .renderer, .renderer,
   .poller]


/-! ## Auxiliary definitions for the statements -/

/-- Whether a call of `readKey` may still send: 1 until it has returned. -/
def ReadKeyPc.holds : ReadKeyPc → Nat
  | .ret => 0
  | _ => 1

/-- Whether `listenKeyPress` holds a received event or is inside its call of
`readKey`: 0 at the receive and after the loop, else 1. -/
def ListenPc.holds : ListenPc → Nat
  | .recv => 0
  | .exited => 0
  | _ => 1

/-- The invariant of the input path: the counters agree with the length of the
buffer of `eventChannel`, and of the running calls of `readKey`, the event held
by `listenKeyPress` and the buffered events there is at most one. -/
def Sys.inv (s : Sys) : Prop :=
  s.enqueued = s.dequeued + s.ui.eventChannel.buf.length
  ∧ s.poller.holds + s.listener.holds + s.ui.eventChannel.buf.length ≤ 1

/-- The cell that a call writes at `(a, b)`, if it writes there. -/
def writeAt (a b : Int) : Op → Option Cell
  | .SetCell x y ch fg bg => if x = a ∧ y = b then some ⟨ch, fg, bg⟩ else none
  | _ => none

/-- The cell drawn for a pixel of colour `c`. -/
def pixelCell (c : Attribute) : Cell := ⟨' ', c, c⟩

/-- A terminal of 80 columns and 24 rows whose cells hold a white `#`. -/
def sampleTerminal : Terminal :=
  { width := 80
    height := 24
    back := fun _ _ => ⟨'#', 7, 7⟩
    front := fun _ _ => ⟨'#', 7, 7⟩ }

/-- A snapshot with one pixel in the last row of the board of 10 by 20. -/
def lastRowFrame : GameState :=
  { Pixels := [{ X := 9, Y := 19, Color := 6 }]
    NextPiece := []
    Pieces := 0
    Lines := 0
    GameOver := false }

/-- A snapshot with three pixels, two of them at `(0, 0)`, and a next piece. -/
def sampleFrame : GameState :=
  { Pixels := [{ X := 0, Y := 0, Color := 3 }, { X := 4, Y := 7, Color := 2 },
      { X := 0, Y := 0, Color := 5 }]
    NextPiece := [{ X := 1, Y := 1, Color := 4 }, { X := 3, Y := 3, Color := 4 }]
    Pieces := 3
    Lines := 1
    GameOver := false }

/-- The state reached by `sampleSchedule`. -/
def sampleReached : Sys :=
  { ui :=
      { eventChannel := { buf := [keyEvent 'z'], cap := 10, closed := false }
        playerSession :=
          { PlayerName := "ann"
            BoardUpdateChannel := { buf := [], cap := 0, closed := false }
            MoveChannel := { buf := ['a'.toNat], cap := 0, closed := false } }
        board := { Height := 20, Width := 10 }
        wg := ⟨1⟩
        gameOver := false }
    input := []
    poller := .ret
    listener := .recv
    renderer := .recv
    enqueued := 2
    dequeued := 1
    crashed := none }

/-- A schedule: the first `readKey` polls, checks and sends; `listenKeyPress`
receives, dispatches, and its `readKey` polls, checks and sends. -/
def sampleSchedule : List Thread :=
  [.poller, .poller, .poller, .listener, .listener, .listener, .listener, .listener]

/-- The calls that leave the `TetrisUi` struct as it is: calls into termbox and
goroutine starts. -/
def Op.isInert : Op → Bool
  | .Init => true
  | .Close => true
  | .SetCell _ _ _ _ _ => true
  | .Flush => true
  | .PollEvent => true
  | .SetInputMode _ => true
  | .go _ => true
  | _ => false

/-- The border as the claim describes it, for the rectangle with opposite
corners `(leftEdge, topEdge)` and `(leftEdge + width, topEdge + height)`: the
glyph of the perimeter cell `(x, y)`, `none` for a cell off the perimeter. -/
def borderGlyph (leftEdge topEdge width height x y : Int) : Option Char :=
  if x = leftEdge ∧ y = topEdge then some TOPLEFT
  else if x = leftEdge + width ∧ y = topEdge then some TOPRIGHT
  else if x = leftEdge ∧ y = topEdge + height then some BOTTOMLEFT
  else if x = leftEdge + width ∧ y = topEdge + height then some BOTTOMRIGHT
  else if (y = topEdge ∨ y = topEdge + height) ∧ leftEdge < x ∧ x < leftEdge + width then
    some HORIZONTAL
  else if (x = leftEdge ∨ x = leftEdge + width) ∧ topEdge < y ∧ y < topEdge + height then
    some VERTICAL
  else none

/-- The cell writes that a frame is made of: a pixel (blank glyph, foreground
equal to background) or a rune of a status line (black on white, rows 3 to
6). -/
def Op.isFrameCell : Op → Bool
  | .SetCell _ y ch fg bg =>
      (ch = ' ' ∧ fg = bg) ∨ (fg = ColorBlack ∧ bg = ColorWhite ∧ 3 ≤ y ∧ y ≤ 6)
  | _ => false


/-! ## Loops and traces -/

theorem mem_loopRange {lo hi i : Int} : i ∈ loopRange lo hi ↔ lo ≤ i ∧ i < hi := by
  unfold loopRange
  simp only [List.mem_map, List.mem_range]
  constructor
  · rintro ⟨k, hk, rfl⟩
    have hk1 : (k : Int) < hi - lo := Int.lt_toNat.mp hk
    omega
  · intro h
    have h0 : ((i - lo).toNat : Int) = i - lo := Int.toNat_of_nonneg (by omega)
    refine ⟨(i - lo).toNat, ?_, by omega⟩
    apply Int.lt_toNat.mpr
    omega

theorem mem_forLoop {lo hi : Int} {body : Int → List Op} {op : Op} :
    op ∈ forLoop lo hi body ↔ ∃ i, lo ≤ i ∧ i < hi ∧ op ∈ body i := by
  unfold forLoop
  simp only [List.mem_flatten, List.mem_map]
  constructor
  · rintro ⟨l, ⟨i, hi, rfl⟩, hop⟩
    exact ⟨i, (mem_loopRange.mp hi).1, (mem_loopRange.mp hi).2, hop⟩
  · rintro ⟨i, h1, h2, hop⟩
    exact ⟨body i, ⟨i, mem_loopRange.mpr ⟨h1, h2⟩, rfl⟩, hop⟩

theorem mem_writeRunes {cs : List Char} {x y : Int} {color : Attribute} {op : Op}
    (h : op ∈ writeRunes cs x y color) :
    ∃ x1 ch, x ≤ x1 ∧ op = Op.SetCell x1 y ch ColorBlack color := by
  induction cs generalizing x with
  | nil => simp [writeRunes] at h
  | cons c cs ih =>
    simp only [writeRunes, List.mem_cons] at h
    rcases h with h | h
    · exact ⟨x, c, le_refl _, h⟩
    · obtain ⟨x1, ch, hx, hop⟩ := ih h
      exact ⟨x1, ch, by omega, hop⟩

theorem isFrameCell_pixel (x y : Int) (c : Attribute) :
    (Op.SetCell x y ' ' c c).isFrameCell = true := by
  simp [Op.isFrameCell]

theorem isFrameCell_drawBoardPixel {p : Pixel} {op : Op} (h : op ∈ drawBoardPixel p) :
    op.isFrameCell = true := by
  simp only [drawBoardPixel, List.mem_cons, List.mem_singleton, List.not_mem_nil,
    or_false] at h
  rcases h with rfl | rfl <;> exact isFrameCell_pixel _ _ _

theorem isFrameCell_drawNextPiecePixel {p : Pixel} {op : Op}
    (h : op ∈ drawNextPiecePixel p) : op.isFrameCell = true := by
  simp only [drawNextPiecePixel, List.mem_cons, List.mem_singleton, List.not_mem_nil,
    or_false] at h
  rcases h with rfl | rfl <;> exact isFrameCell_pixel _ _ _

theorem isFrameCell_status {msg : String} {x y : Int} {op : Op}
    (hy : 3 ≤ y ∧ y ≤ 6) (h : op ∈ writeMessage msg x y ColorWhite) :
    op.isFrameCell = true := by
  obtain ⟨x1, ch, _, rfl⟩ := mem_writeRunes h
  simp [Op.isFrameCell, hy.1, hy.2]

/-- A frame is a sequence of cell writes followed by one `Flush`. -/
theorem renderFrame_split (r : TetrisUi) (gm : GameState) :
    ∃ cells, renderFrame r gm = cells ++ [Op.Flush] ∧ ∀ op ∈ cells, op.isFrameCell = true := by
  refine ⟨_, rfl, ?_⟩
  intro op hop
  simp only [List.mem_append, List.mem_flatten, List.mem_map] at hop
  rcases hop with ((((((h | h) | h) | h) | h) | h) | h) | h
  · obtain ⟨x, _, _, h⟩ := mem_forLoop.mp h
    obtain ⟨y, _, _, h⟩ := mem_forLoop.mp h
    exact isFrameCell_drawBoardPixel h
  · obtain ⟨x, _, _, h⟩ := mem_forLoop.mp h
    obtain ⟨y, _, _, h⟩ := mem_forLoop.mp h
    exact isFrameCell_drawNextPiecePixel h
  · exact isFrameCell_status (by decide) h
  · exact isFrameCell_status (by decide) h
  · exact isFrameCell_status (by decide) h
  · exact isFrameCell_status (by decide) h
  · obtain ⟨l, ⟨p, _, rfl⟩, h⟩ := h
    exact isFrameCell_drawBoardPixel h
  · obtain ⟨l, ⟨p, _, rfl⟩, h⟩ := h
    exact isFrameCell_drawNextPiecePixel h

theorem count_renderFrame_flush (r : TetrisUi) (gm : GameState) :
    (renderFrame r gm).count Op.Flush = 1 := by
  obtain ⟨cells, heq, hcells⟩ := renderFrame_split r gm
  have h0 : cells.count Op.Flush = 0 := by
    rw [List.count_eq_zero]
    intro hmem
    have := hcells _ hmem
    simp [Op.isFrameCell] at this
  rw [heq, List.count_append, h0]
  rfl

theorem count_renderFrame_other (r : TetrisUi) (gm : GameState) (op : Op)
    (h1 : op.isFrameCell = false) (h2 : op ≠ Op.Flush) :
    (renderFrame r gm).count op = 0 := by
  obtain ⟨cells, heq, hcells⟩ := renderFrame_split r gm
  rw [List.count_eq_zero, heq]
  intro hmem
  rcases List.mem_append.mp hmem with h | h
  · rw [hcells _ h] at h1
    exact Bool.noConfusion h1
  · exact h2 (List.mem_singleton.mp h)

theorem count_frames_flush (r : TetrisUi) (pre : List GameState) :
    ((pre.map (renderFrame r)).flatten).count Op.Flush = pre.length := by
  induction pre with
  | nil => rfl
  | cons gm pre ih =>
    simp only [List.map_cons, List.flatten_cons, List.count_append, ih,
      count_renderFrame_flush, List.length_cons]
    omega

theorem count_frames_other (r : TetrisUi) (pre : List GameState) (op : Op)
    (h1 : op.isFrameCell = false) (h2 : op ≠ Op.Flush) :
    ((pre.map (renderFrame r)).flatten).count op = 0 := by
  induction pre with
  | nil => rfl
  | cons gm pre ih =>
    simp only [List.map_cons, List.flatten_cons, List.count_append, ih,
      count_renderFrame_other r gm op h1 h2]

/-- On a stream with no game-over snapshot the renderer draws one frame per
snapshot and does nothing else. -/
theorem ListenToBoardUpdates_frames (r : TetrisUi) (stream : List GameState)
    (h : ∀ gm ∈ stream, gm.GameOver = false) :
    ListenToBoardUpdates r stream = (stream.map (renderFrame r)).flatten := by
  induction stream with
  | nil => rfl
  | cons gm rest ih =>
    have hgm : gm.GameOver = false := h gm (List.mem_cons_self _ _)
    simp only [ListenToBoardUpdates, hgm, Bool.false_eq_true, if_false, List.map_cons,
      List.flatten_cons]
    rw [ih (fun g hg => h g (List.mem_cons_of_mem _ hg))]

/-- Up to the first game-over snapshot the renderer draws one frame per
snapshot, then runs the game-over branch and stops. -/
theorem ListenToBoardUpdates_upto (r : TetrisUi) (pre : List GameState) (g : GameState)
    (rest : List GameState) (hpre : ∀ gm ∈ pre, gm.GameOver = false)
    (hg : g.GameOver = true) :
    ListenToBoardUpdates r (pre ++ g :: rest)
      = (pre.map (renderFrame r)).flatten ++ gameOverBranch := by
  induction pre with
  | nil => simp [ListenToBoardUpdates, hg]
  | cons gm pre ih =>
    have hgm : gm.GameOver = false := hpre gm (List.mem_cons_self _ _)
    simp only [List.cons_append, ListenToBoardUpdates, hgm, Bool.false_eq_true, if_false,
      List.map_cons, List.flatten_cons, List.append_assoc]
    exact congrArg _ (ih (fun g1 hg1 => hpre g1 (List.mem_cons_of_mem _ hg1)))


/-! ## The renderer: frames, game over, end of the stream -/

theorem exec_frame_op (r : TetrisUi) (op : Op) (h : op.isFrameCell = true ∨ op = Op.Flush) :
    r.exec op = .ok r := by
  rcases h with h | rfl
  · cases op <;> first | rfl | simp [Op.isFrameCell] at h
  · rfl

theorem run_append_ok (r r1 : TetrisUi) (ops1 ops2 : List Op)
    (h : TetrisUi.run r ops1 = .ok r1) :
    TetrisUi.run r (ops1 ++ ops2) = TetrisUi.run r1 ops2 := by
  induction ops1 generalizing r with
  | nil =>
    simp only [TetrisUi.run, Except.ok.injEq] at h
    subst h
    rfl
  | cons op ops ih =>
    simp only [List.cons_append, TetrisUi.run] at h ⊢
    cases hop : r.exec op with
    | ok r2 =>
      rw [hop] at h
      exact ih r2 h
    | error e =>
      rw [hop] at h
      exact Except.noConfusion h

theorem run_frame_ops (r : TetrisUi) (ops : List Op)
    (h : ∀ op ∈ ops, op.isFrameCell = true ∨ op = Op.Flush) :
    TetrisUi.run r ops = .ok r := by
  induction ops with
  | nil => rfl
  | cons op ops ih =>
    simp only [TetrisUi.run, exec_frame_op r op (h op (List.mem_cons_self _ _))]
    exact ih (fun o ho => h o (List.mem_cons_of_mem _ ho))

theorem mem_renderFrame {r : TetrisUi} {gm : GameState} {op : Op}
    (h : op ∈ renderFrame r gm) : op.isFrameCell = true ∨ op = Op.Flush := by
  obtain ⟨cells, heq, hcells⟩ := renderFrame_split r gm
  rw [heq] at h
  rcases List.mem_append.mp h with h | h
  · exact Or.inl (hcells _ h)
  · exact Or.inr (List.mem_singleton.mp h)

theorem mem_frames {r : TetrisUi} {stream : List GameState} {op : Op}
    (h : op ∈ (stream.map (renderFrame r)).flatten) :
    op.isFrameCell = true ∨ op = Op.Flush := by
  simp only [List.mem_flatten, List.mem_map] at h
  obtain ⟨l, ⟨gm, _, rfl⟩, hop⟩ := h
  exact mem_renderFrame hop

/-- Running the frames of a stream leaves the `TetrisUi` struct as it was. -/
theorem run_frames (r : TetrisUi) (stream : List GameState) :
    TetrisUi.run r ((stream.map (renderFrame r)).flatten) = .ok r :=
  run_frame_ops r _ (fun _ h => mem_frames h)

/-- C1: for `N` snapshots that are not game over, then one game-over snapshot,
then any further snapshots, `ListenToBoardUpdates` performs the `N` frames
(clear, redraw, flush) one after the other, then the game-over branch (store
the flag, write "GAME OVER, PRESS A KEY", flush, signal, close both channels)
and nothing after it: the trace has `N + 1` flushes, one signal, the message is
written once, and the snapshots after the game-over snapshot play no part. -/
theorem ListenToBoardUpdates_until_game_over (r : TetrisUi) (pre : List GameState)
    (g : GameState) (rest : List GameState)
    (hpre : ∀ gm ∈ pre, gm.GameOver = false) (hg : g.GameOver = true) :
    ListenToBoardUpdates r (pre ++ g :: rest)
        = (pre.map (renderFrame r)).flatten
          ++ ([Op.setGameOver] ++ writeMessage "GAME OVER, PRESS A KEY" 2 1 ColorWhite
              ++ [Op.Flush] ++ signalEndOfGame
              ++ [Op.closeEventChannel, Op.closeBoardUpdateChannel])
    ∧ (pre.map (renderFrame r)).length = pre.length
    ∧ (ListenToBoardUpdates r (pre ++ g :: rest)).count Op.Flush = pre.length + 1
    ∧ (ListenToBoardUpdates r (pre ++ g :: rest)).count Op.wgDone = 1
    ∧ (ListenToBoardUpdates r (pre ++ g :: rest)).count
        (Op.SetCell 2 1 'G' ColorBlack ColorWhite) = 1
    ∧ ListenToBoardUpdates r (pre ++ g :: rest) = ListenToBoardUpdates r (pre ++ [g]) := by
  have htrace := ListenToBoardUpdates_upto r pre g rest hpre hg
  refine ⟨htrace, List.length_map _ _, ?_, ?_, ?_, ?_⟩
  · rw [htrace, List.count_append, count_frames_flush]
    have : gameOverBranch.count Op.Flush = 1 := by decide
    omega
  · rw [htrace, List.count_append, count_frames_other r pre Op.wgDone rfl (by decide)]
    decide
  · rw [htrace, List.count_append,
      count_frames_other r pre (Op.SetCell 2 1 'G' ColorBlack ColorWhite) (by decide) (by decide)]
    decide
  · rw [htrace, ListenToBoardUpdates_upto r pre g [] hpre hg]

/-- C1 at a concrete stream: one frame, game over, one more snapshot. -/
theorem ListenToBoardUpdates_until_game_over_witness :
    (∀ gm ∈ [emptySnapshot], gm.GameOver = false) ∧ gameOverSnapshot.GameOver = true
    ∧ (ListenToBoardUpdates sampleUi ([emptySnapshot] ++ gameOverSnapshot :: [emptySnapshot])).count
        Op.wgDone = 1
    ∧ (ListenToBoardUpdates sampleUi ([emptySnapshot] ++ gameOverSnapshot :: [emptySnapshot])).count
        Op.Flush = 2 :=
  have h := ListenToBoardUpdates_until_game_over sampleUi [emptySnapshot] gameOverSnapshot
    [emptySnapshot] (by decide) (by decide)
  ⟨by decide, by decide, h.2.2.2.1, h.2.2.1⟩

/-- C7, as stated, fails: on the stream that delivers one snapshot without game
over and then ends, `ListenToBoardUpdates` returns with `eventChannel` still
open; no call closes it. -/
theorem stream_end_leaves_eventChannel_open :
    emptySnapshot.GameOver = false
    ∧ TetrisUi.run sampleUi (ListenToBoardUpdates sampleUi [emptySnapshot]) = .ok sampleUi
    ∧ sampleUi.eventChannel.closed = false
    ∧ Op.closeEventChannel ∉ ListenToBoardUpdates sampleUi [emptySnapshot] := by
  have hs : ∀ gm ∈ [emptySnapshot], gm.GameOver = false := by decide
  refine ⟨rfl, ?_, rfl, ?_⟩
  · rw [ListenToBoardUpdates_frames _ _ hs]
    exact run_frames _ _
  · rw [ListenToBoardUpdates_frames _ _ hs]
    intro hmem
    rcases mem_frames hmem with h | h
    · exact Bool.noConfusion h
    · exact Op.noConfusion h

/-- C7, amended: when the stream ends without a game-over snapshot,
`ListenToBoardUpdates` has drawn one frame per snapshot and returns without
the shutdown of the game-over branch: it does not close `eventChannel`, does
not signal, does not set `gameOver`, and the `TetrisUi` struct is as before;
the close of `eventChannel` belongs to the game-over branch only. -/
theorem ListenToBoardUpdates_stream_end (r : TetrisUi) (stream : List GameState)
    (h : ∀ gm ∈ stream, gm.GameOver = false) :
    ListenToBoardUpdates r stream = (stream.map (renderFrame r)).flatten
    ∧ Op.closeEventChannel ∉ ListenToBoardUpdates r stream
    ∧ Op.wgDone ∉ ListenToBoardUpdates r stream
    ∧ Op.setGameOver ∉ ListenToBoardUpdates r stream
    ∧ TetrisUi.run r (ListenToBoardUpdates r stream) = .ok r
    ∧ Op.closeEventChannel ∈ gameOverBranch := by
  have htrace := ListenToBoardUpdates_frames r stream h
  have hno : ∀ op : Op, op.isFrameCell = false → op ≠ Op.Flush →
      op ∉ ListenToBoardUpdates r stream := by
    intro op h1 h2 hmem
    rw [htrace] at hmem
    rcases mem_frames hmem with h3 | h3
    · rw [h3] at h1
      exact Bool.noConfusion h1
    · exact h2 h3
  refine ⟨htrace, hno Op.closeEventChannel rfl (by decide), hno Op.wgDone rfl (by decide),
    hno Op.setGameOver rfl (by decide), ?_,
    by decide⟩
  rw [htrace]
  exact run_frames r stream

/-- C7 amended, at a concrete stream of two snapshots. -/
theorem ListenToBoardUpdates_stream_end_witness :
    (∀ gm ∈ [emptySnapshot, emptySnapshot], gm.GameOver = false)
    ∧ Op.closeEventChannel ∉ ListenToBoardUpdates sampleUi [emptySnapshot, emptySnapshot]
    ∧ TetrisUi.run sampleUi (ListenToBoardUpdates sampleUi [emptySnapshot, emptySnapshot])
        = .ok sampleUi :=
  have h := ListenToBoardUpdates_stream_end sampleUi [emptySnapshot, emptySnapshot] (by decide)
  ⟨by decide, h.2.1, h.2.2.2.2.1⟩

/-! ## Key dispatch -/

theorem movesSent_append (a b : List Op) : movesSent (a ++ b) = movesSent a ++ movesSent b := by
  simp [movesSent, List.filterMap_append]

theorem movesSent_readKey (gameOver : Bool) (ev : Event) :
    movesSent (readKey gameOver ev) = [] := by
  unfold readKey
  cases ev.EvType <;> cases gameOver <;> rfl

theorem onKeyPress_eq (sh : Shared) (event : Event) :
    onKeyPress sh event =
      if recognised sh (sh.MoveTypeOf event.Ch) = true then
        [Op.sendMove (sh.MoveTypeOf event.Ch)]
      else [] := by
  simp only [onKeyPress, recognised, decide_eq_true_eq]
  split_ifs <;> simp_all

theorem movesSent_onKeyPress (sh : Shared) (event : Event) :
    movesSent (onKeyPress sh event)
      = [sh.MoveTypeOf event.Ch].filter (recognised sh) := by
  rw [onKeyPress_eq]
  by_cases h : recognised sh (sh.MoveTypeOf event.Ch) = true
  · simp [h, movesSent]
  · simp [h, movesSent]

theorem movesSent_listenKeyPress (sh : Shared) (turns : List Turn) :
    movesSent (listenKeyPress sh turns)
      = (turns.map (fun t => sh.MoveTypeOf t.e.Ch)).filter (recognised sh) := by
  induction turns with
  | nil => rfl
  | cons t rest ih =>
    simp only [listenKeyPress, movesSent_append, movesSent_readKey, movesSent_onKeyPress, ih,
      List.map_cons, List.append_nil]
    rw [← List.filter_append]
    rfl

/-- C2: the moves sent on `MoveChannel` while `listenKeyPress` drains a
sequence of events are the codes of those events that are among the six
recognised moves, in the same order, each once; a recognised key followed by
unrecognised keys forwards that one move; `onKeyPress` sends the move of a
recognised code and nothing for any other code. -/
theorem listenKeyPress_forwards_recognised (sh : Shared) (turns : List Turn) :
    movesSent (listenKeyPress sh turns)
        = (turns.map (fun t => sh.MoveTypeOf t.e.Ch)).filter (recognised sh)
    ∧ (∀ (t : Turn) (rest : List Turn),
        recognised sh (sh.MoveTypeOf t.e.Ch) = true →
        (∀ u ∈ rest, recognised sh (sh.MoveTypeOf u.e.Ch) = false) →
        movesSent (listenKeyPress sh (t :: rest)) = [sh.MoveTypeOf t.e.Ch])
    ∧ (∀ e : Event, recognised sh (sh.MoveTypeOf e.Ch) = true →
        onKeyPress sh e = [Op.sendMove (sh.MoveTypeOf e.Ch)])
    ∧ (∀ e : Event, recognised sh (sh.MoveTypeOf e.Ch) = false → onKeyPress sh e = []) := by
  refine ⟨movesSent_listenKeyPress sh turns, ?_, ?_, ?_⟩
  · intro t rest ht hrest
    rw [movesSent_listenKeyPress, List.map_cons, List.filter_cons_of_pos ht]
    congr 1
    rw [List.filter_eq_nil_iff]
    intro m hm
    obtain ⟨u, hu, rfl⟩ := List.mem_map.mp hm
    simp [hrest u hu]
  · intro e he
    rw [onKeyPress_eq, if_pos he]
  · intro e he
    rw [onKeyPress_eq, if_neg (by simp [he])]

/-! ## The end-of-game gate -/

/-- C5, as stated, fails: after the first `signalEndOfGame` a second one does
not succeed, it panics. -/
theorem second_signalEndOfGame_panics :
    TetrisUi.run sampleUi signalEndOfGame = .ok { sampleUi with wg := ⟨0⟩ }
    ∧ TetrisUi.run { sampleUi with wg := ⟨0⟩ } signalEndOfGame
        = .error (.panic "sync: negative WaitGroup counter") :=
  ⟨rfl, rfl⟩

/-- C5, amended: `NewTetrisUi` sets the counter to 1; `awaitEndOfGame` does not
return before `signalEndOfGame`; the first `signalEndOfGame` succeeds and
brings the counter to zero, after which `awaitEndOfGame` returns, any number
of times; a second `signalEndOfGame` panics with a negative counter. -/
theorem end_of_game_gate (sh : Shared) (cs : ClientSession) :
    (NewTetrisUi sh cs).wg.counter = 1
    ∧ TetrisUi.run (NewTetrisUi sh cs) awaitEndOfGame = .error .blocked
    ∧ TetrisUi.run (NewTetrisUi sh cs) signalEndOfGame
        = .ok { NewTetrisUi sh cs with wg := ⟨0⟩ }
    ∧ TetrisUi.run (NewTetrisUi sh cs) (signalEndOfGame ++ awaitEndOfGame)
        = .ok { NewTetrisUi sh cs with wg := ⟨0⟩ }
    ∧ TetrisUi.run (NewTetrisUi sh cs) (signalEndOfGame ++ awaitEndOfGame ++ awaitEndOfGame)
        = .ok { NewTetrisUi sh cs with wg := ⟨0⟩ }
    ∧ TetrisUi.run (NewTetrisUi sh cs) (signalEndOfGame ++ signalEndOfGame)
        = .error (.panic "sync: negative WaitGroup counter") := by
  refine ⟨rfl, ?_, ?_, ?_, ?_, ?_⟩ <;> rfl

/-! ## `StartGame` -/

theorem exec_inert (r : TetrisUi) (op : Op) (h : op.isInert = true) : r.exec op = .ok r := by
  cases op <;> first | rfl | exact Bool.noConfusion h

theorem run_inert (r : TetrisUi) (ops : List Op) (h : ∀ op ∈ ops, op.isInert = true) :
    TetrisUi.run r ops = .ok r := by
  induction ops with
  | nil => rfl
  | cons op ops ih =>
    simp only [TetrisUi.run, exec_inert r op (h op (List.mem_cons_self _ _))]
    exact ih (fun o ho => h o (List.mem_cons_of_mem _ ho))

/-- The calls of `StartGame` before the wait, when `Init` succeeds. -/
theorem StartGame_trace :
    (StartGame none).1
      = ([Op.Init, Op.go Task.readKey, Op.go Task.listenKeyPress,
          Op.go Task.ListenToBoardUpdates]
          ++ drawBorder 0 0 35 30 ++ writeMessage "tetris://" 2 2 ColorWhite ++ [Op.Flush])
        ++ ([Op.wgWait] ++ [Op.PollEvent, Op.Flush, Op.SetInputMode InputEsc, Op.Close]) := by
  simp [StartGame, awaitEndOfGame]

set_option maxRecDepth 100000 in
theorem StartGame_setup_inert :
    ∀ op ∈ ([Op.Init, Op.go Task.readKey, Op.go Task.listenKeyPress,
          Op.go Task.ListenToBoardUpdates]
          ++ drawBorder 0 0 35 30 ++ writeMessage "tetris://" 2 2 ColorWhite ++ [Op.Flush]),
      op.isInert = true := by
  decide

theorem StartGame_run (r : TetrisUi) :
    TetrisUi.run r (StartGame none).1 = if r.wg.counter = 0 then .ok r else .error .blocked := by
  rw [StartGame_trace, run_append_ok r r _ _ (run_inert r _ StartGame_setup_inert)]
  by_cases h : r.wg.counter = 0
  · simp [TetrisUi.run, TetrisUi.exec, WaitGroup.Wait, h]
  · simp [TetrisUi.run, TetrisUi.exec, WaitGroup.Wait, h]

set_option maxRecDepth 100000 in
theorem StartGame_count_wgWait : (StartGame none).1.count Op.wgWait = 1 := by
  decide

set_option maxRecDepth 100000 in
theorem StartGame_count_Close : (StartGame none).1.count Op.Close = 1 := by
  decide

set_option maxRecDepth 100000 in
theorem StartGame_last_Close : (StartGame none).1.getLast? = some Op.Close := by
  decide

set_option maxRecDepth 100000 in
theorem StartGame_setup_no_Close :
    Op.Close ∉ ([Op.Init, Op.go Task.readKey, Op.go Task.listenKeyPress,
          Op.go Task.ListenToBoardUpdates]
          ++ drawBorder 0 0 35 30 ++ writeMessage "tetris://" 2 2 ColorWhite ++ [Op.Flush]) := by
  decide

/-- C6: when `termbox.Init` returns an error `e`, `StartGame` returns the
client system error built from `e`, which carries `e` as its cause, and its
only call is `Init`: no goroutine is started, no cell drawn, no flush, no poll.
When `Init` succeeds, `StartGame` starts the three goroutines, returns nil, and
its calls run to the end exactly when the wait on the gate returns, that is
when the WaitGroup counter is zero. -/
theorem StartGame_init_result (e : GoError) :
    StartGame (some e) = ([Op.Init], some (NewClientSystemError "unable to initialise termbox" e))
    ∧ (StartGame (some e)).2 ≠ none
    ∧ (StartGame (some e)).2.map (fun err => err.cause) = some e
    ∧ (∀ t, Op.go t ∉ (StartGame (some e)).1)
    ∧ (∀ x y ch fg bg, Op.SetCell x y ch fg bg ∉ (StartGame (some e)).1)
    ∧ Op.Flush ∉ (StartGame (some e)).1
    ∧ Op.PollEvent ∉ (StartGame (some e)).1
    ∧ (StartGame none).2 = none
    ∧ (∃ rest, (StartGame none).1
        = [Op.Init, Op.go Task.readKey, Op.go Task.listenKeyPress,
            Op.go Task.ListenToBoardUpdates] ++ rest)
    ∧ (StartGame none).1.count Op.wgWait = 1
    ∧ (∀ r : TetrisUi, r.wg.counter ≠ 0 →
        TetrisUi.run r (StartGame none).1 = .error .blocked)
    ∧ (∀ r : TetrisUi, r.wg.counter = 0 → TetrisUi.run r (StartGame none).1 = .ok r) := by
  refine ⟨rfl, ?_, rfl, ?_, ?_, ?_, ?_, rfl, ⟨_, rfl⟩, StartGame_count_wgWait, ?_, ?_⟩
  · simp [StartGame]
  · simp [StartGame]
  · simp [StartGame]
  · simp [StartGame]
  · simp [StartGame]
  · intro r hr
    rw [StartGame_run, if_neg hr]
  · intro r hr
    rw [StartGame_run, if_pos hr]

/-- C8, as stated, fails: when `termbox.Init` returns an error, `StartGame`
returns an error without any call of `termbox.Close`. -/
theorem StartGame_init_failure_no_Close :
    (StartGame (some "no terminal")).2 ≠ none
    ∧ Op.Close ∉ (StartGame (some "no terminal")).1 := by
  decide

/-- C8, amended: when `termbox.Init` succeeds, the calls of `StartGame` after
the wait on the gate are, in order, one `PollEvent`, one `Flush`, one
`SetInputMode(InputEsc)` and the deferred `Close`, which is the last call and
the only `Close`; when `Init` fails, `StartGame` returns without `Close`. -/
theorem StartGame_release (e : GoError) :
    (∃ setup, (StartGame none).1
        = setup ++ awaitEndOfGame ++ [Op.PollEvent, Op.Flush, Op.SetInputMode InputEsc, Op.Close]
        ∧ Op.wgWait ∉ setup ∧ Op.Close ∉ setup)
    ∧ (StartGame none).1.getLast? = some Op.Close
    ∧ (StartGame none).1.count Op.Close = 1
    ∧ Op.Close ∉ (StartGame (some e)).1 := by
  refine ⟨⟨[Op.Init, Op.go Task.readKey, Op.go Task.listenKeyPress,
      Op.go Task.ListenToBoardUpdates] ++ drawBorder 0 0 35 30
      ++ writeMessage "tetris://" 2 2 ColorWhite ++ [Op.Flush], ?_, ?_, ?_⟩, ?_, ?_, ?_⟩
  · simp [StartGame]
  · intro h
    have := StartGame_setup_inert _ h
    exact Bool.noConfusion this
  · exact StartGame_setup_no_Close
  · exact StartGame_last_Close
  · exact StartGame_count_Close
  · simp [StartGame]

/-! ## The input path: queue depth -/

theorem exec_buf (r r1 : TetrisUi) (op : Op) (h : r.exec op = .ok r1)
    (hop : ∀ ev, op ≠ Op.sendEvent ev) :
    r1.eventChannel.buf = r.eventChannel.buf := by
  cases op with
  | sendEvent ev => exact absurd rfl (hop ev)
  | wgDone =>
    simp only [TetrisUi.exec] at h
    split at h
    · cases h; rfl
    · cases h
  | wgWait =>
    simp only [TetrisUi.exec] at h
    split at h
    · cases h; rfl
    · cases h
  | closeEventChannel =>
    simp only [TetrisUi.exec] at h
    split at h
    · cases h
    · cases h; rfl
  | closeBoardUpdateChannel =>
    simp only [TetrisUi.exec] at h
    split at h
    · cases h
    · cases h; rfl
  | sendMove m =>
    simp only [TetrisUi.exec] at h
    split at h
    · cases h
    · cases h; rfl
  | _ =>
    simp only [TetrisUi.exec] at h
    cases h
    rfl

theorem run_onKeyPress_buf (sh : Shared) (r r1 : TetrisUi) (e : Event)
    (h : TetrisUi.run r (onKeyPress sh e) = .ok r1) :
    r1.eventChannel.buf = r.eventChannel.buf := by
  rw [onKeyPress_eq] at h
  split at h
  · simp only [TetrisUi.run] at h
    cases hx : r.exec (Op.sendMove (sh.MoveTypeOf e.Ch)) with
    | ok r2 =>
      rw [hx] at h
      simp only [Except.ok.injEq] at h
      subst h
      exact exec_buf r r2 _ hx (fun ev => Op.noConfusion)
    | error err =>
      rw [hx] at h
      cases h
  · simp only [TetrisUi.run, Except.ok.injEq] at h
    subst h
    rfl

/-- One statement of `readKey` either leaves the buffer and the counters, or is
the send: the call has then returned and buffer and `enqueued` grew by one. -/
theorem readKeyStep_effect (s s1 : Sys) (pc pc1 : ReadKeyPc)
    (h : s.readKeyStep pc = some (s1, pc1)) :
    pc.holds = 1 ∧ s1.poller = s.poller ∧ s1.listener = s.listener
    ∧ s1.dequeued = s.dequeued
    ∧ ((s1.ui.eventChannel.buf = s.ui.eventChannel.buf ∧ s1.enqueued = s.enqueued)
      ∨ (pc1 = .ret ∧ s1.ui.eventChannel.buf.length = s.ui.eventChannel.buf.length + 1
          ∧ s1.enqueued = s.enqueued + 1)) := by
  cases pc with
  | poll =>
    simp only [Sys.readKeyStep] at h
    split at h
    · cases h
    · simp only [Option.some.injEq, Prod.mk.injEq] at h
      obtain ⟨rfl, _⟩ := h
      exact ⟨rfl, rfl, rfl, rfl, Or.inl ⟨rfl, rfl⟩⟩
  | check ev =>
    simp only [Sys.readKeyStep, Option.some.injEq, Prod.mk.injEq] at h
    obtain ⟨rfl, _⟩ := h
    exact ⟨rfl, rfl, rfl, rfl, Or.inl ⟨rfl, rfl⟩⟩
  | send ev =>
    simp only [Sys.readKeyStep, TetrisUi.exec] at h
    split at h
    · rename_i ui hui
      simp only [Option.some.injEq, Prod.mk.injEq] at h
      obtain ⟨rfl, rfl⟩ := h
      refine ⟨rfl, rfl, rfl, rfl, Or.inr ⟨rfl, ?_, rfl⟩⟩
      split at hui
      · cases hui
      · split at hui
        · cases hui
          simp
        · cases hui
    · simp only [Option.some.injEq, Prod.mk.injEq] at h
      obtain ⟨rfl, _⟩ := h
      exact ⟨rfl, rfl, rfl, rfl, Or.inl ⟨rfl, rfl⟩⟩
    · cases h
  | ret =>
    simp only [Sys.readKeyStep] at h
    cases h

theorem execRenderer_inv (s s1 : Sys) (op : Op) (next : RenderPc)
    (hop : ∀ ev, op ≠ Op.sendEvent ev) (h : s.execRenderer op next = some s1)
    (hi : s.inv) : s1.inv := by
  unfold Sys.execRenderer at h
  split at h
  · rename_i ui hui
    simp only [Option.some.injEq] at h
    subst h
    have hb := exec_buf _ _ _ hui hop
    simpa [Sys.inv, hb] using hi
  · simp only [Option.some.injEq] at h
    subst h
    exact hi
  · cases h

theorem stepRenderer_inv (s s1 : Sys) (h : s.stepRenderer = some s1) (hi : s.inv) :
    s1.inv := by
  unfold Sys.stepRenderer at h
  split at h
  · split at h
    · simp only [Option.some.injEq] at h
      subst h
      exact hi
    · split at h
      · simp only [Option.some.injEq] at h
        subst h
        exact hi
      · cases h
  · exact execRenderer_inv s s1 _ _ (fun ev => Op.noConfusion) h hi
  · simp only [Option.some.injEq] at h
    subst h
    exact hi
  · simp only [Option.some.injEq] at h
    subst h
    exact hi
  · exact execRenderer_inv s s1 _ _ (fun ev => Op.noConfusion) h hi
  · exact execRenderer_inv s s1 _ _ (fun ev => Op.noConfusion) h hi
  · exact execRenderer_inv s s1 _ _ (fun ev => Op.noConfusion) h hi
  · cases h

theorem stepListener_inv (sh : Shared) (s s1 : Sys) (h : s.stepListener sh = some s1)
    (hi : s.inv) : s1.inv := by
  unfold Sys.stepListener at h
  obtain ⟨hi1, hi2⟩ := hi
  split at h
  · rename_i hl
    split at h
    · rename_i e rest hbuf
      simp only [Option.some.injEq] at h
      subst h
      simp only [Sys.inv, ListenPc.holds]
      rw [hbuf] at hi1 hi2
      rw [hl] at hi2
      simp only [List.length_cons, ListenPc.holds] at hi1 hi2
      constructor <;> omega
    · split at h
      · simp only [Option.some.injEq] at h
        subst h
        rw [hl] at hi2
        exact ⟨hi1, by simpa [ListenPc.holds] using hi2⟩
      · cases h
  · rename_i e hl
    split at h
    · rename_i ui hui
      simp only [Option.some.injEq] at h
      subst h
      have hb := run_onKeyPress_buf sh _ _ e hui
      rw [hl] at hi2
      simp only [Sys.inv, ListenPc.holds, hb] at hi2 ⊢
      exact ⟨hi1, hi2⟩
    · simp only [Option.some.injEq] at h
      subst h
      exact ⟨hi1, hi2⟩
    · cases h
  · rename_i pc hl
    rw [hl] at hi2
    simp only [ListenPc.holds] at hi2
    split at h
    · rename_i s2 hrk
      simp only [Option.some.injEq] at h
      subst h
      obtain ⟨_, hp, _, hd, hcase⟩ := readKeyStep_effect s s2 pc _ hrk
      simp only [Sys.inv, ListenPc.holds, hp, hd]
      rcases hcase with ⟨hb, he⟩ | ⟨_, hb, he⟩
      · rw [hb, he]
        constructor <;> omega
      · rw [hb, he]
        constructor <;> omega
    · rename_i s2 pc1 hne hrk
      simp only [Option.some.injEq] at h
      subst h
      obtain ⟨_, hp, _, hd, hcase⟩ := readKeyStep_effect s s2 pc _ hrk
      simp only [Sys.inv, ListenPc.holds, hp, hd]
      rcases hcase with ⟨hb, he⟩ | ⟨hret, _, _⟩
      · rw [hb, he]
        constructor <;> omega
      · exact absurd hret (fun hc => hne hc)
    · cases h
  · cases h

theorem step_inv (sh : Shared) (s s1 : Sys) (th : Thread) (h : s.step sh th = some s1)
    (hi : s.inv) : s1.inv := by
  unfold Sys.step at h
  split at h
  · cases h
  · cases th with
    | poller =>
      simp only [Option.map_eq_some'] at h
      obtain ⟨⟨s2, pc1⟩, hrk, rfl⟩ := h
      obtain ⟨hh, _, hl, hd, hcase⟩ := readKeyStep_effect s s2 _ _ hrk
      obtain ⟨hi1, hi2⟩ := hi
      simp only [Sys.inv, hl, hd]
      have hpc1 : pc1.holds ≤ 1 := by cases pc1 <;> simp [ReadKeyPc.holds]
      rcases hcase with ⟨hb, he⟩ | ⟨rfl, hb, he⟩
      · rw [hb, he]
        constructor <;> omega
      · rw [hb, he]
        simp only [ReadKeyPc.holds]
        constructor <;> omega
    | listener => exact stepListener_inv sh s s1 h hi
    | renderer => exact stepRenderer_inv s s1 h hi

theorem runSchedule_inv (sh : Shared) (s s1 : Sys) (sched : List Thread)
    (h : Sys.runSchedule sh s sched = some s1) (hi : s.inv) : s1.inv := by
  induction sched generalizing s with
  | nil =>
    simp only [Sys.runSchedule, Option.some.injEq] at h
    subst h
    exact hi
  | cons th rest ih =>
    simp only [Sys.runSchedule] at h
    split at h
    · rename_i s2 hstep
      exact ih s2 h (step_inv sh s s2 th hstep hi)
    · cases h

theorem init_inv (sh : Shared) (cs : ClientSession) (input : List Event) :
    (Sys.init sh cs input).inv := by
  simp [Sys.inv, Sys.init, NewTetrisUi, Chan.make, ReadKeyPc.holds, ListenPc.holds]

/-- C4: in every state reached from the start of the three goroutines, by any
schedule, for any terminal input and any snapshot stream, the number of events
sent on `eventChannel` minus the number received from it is 0 or 1, and it is
the number of events in the buffer of the channel. -/
theorem eventChannel_depth (sh : Shared) (cs : ClientSession) (input : List Event)
    (sched : List Thread) (s : Sys)
    (h : Sys.runSchedule sh (Sys.init sh cs input) sched = some s) :
    (s.enqueued = s.dequeued ∨ s.enqueued = s.dequeued + 1)
    ∧ s.enqueued = s.dequeued + s.ui.eventChannel.buf.length := by
  obtain ⟨h1, h2⟩ := runSchedule_inv sh _ s sched h (init_inv sh cs input)
  refine ⟨?_, h1⟩
  omega

/-- C4 at a concrete schedule with two key events. -/
theorem eventChannel_depth_witness :
    Sys.runSchedule sampleShared
        (Sys.init sampleShared (sampleSession []) [keyEvent 'a', keyEvent 'z']) sampleSchedule
      = some sampleReached
    ∧ (sampleReached.enqueued = sampleReached.dequeued
        ∨ sampleReached.enqueued = sampleReached.dequeued + 1) :=
  ⟨by decide,
    (eventChannel_depth sampleShared (sampleSession []) [keyEvent 'a', keyEvent 'z']
      sampleSchedule sampleReached (by decide)).1⟩

/-! ## The input path: the flag and the close -/

/-- C9, at the schedule `raceSchedule`: `readKey` has read `gameOver` as false
and stands before its send when the renderer has set the flag and closed
`eventChannel`; its next statement is the send on the closed channel, which
panics. -/
theorem readKey_sends_on_closed_eventChannel :
    (Sys.runSchedule sampleShared
        (Sys.init sampleShared (sampleSession [gameOverSnapshot]) [keyEvent 'a'])
        (raceSchedule.take 8)).map
          (fun s => (s.ui.gameOver, s.ui.eventChannel.closed, s.poller, s.crashed))
      = some (true, true, ReadKeyPc.send (keyEvent 'a'), none)
    ∧ (Sys.runSchedule sampleShared
        (Sys.init sampleShared (sampleSession [gameOverSnapshot]) [keyEvent 'a'])
        raceSchedule).map (fun s => (s.enqueued, s.crashed))
      = some (0, some "send on closed channel") := by
  decide

/-! ## The cells of the board after a frame -/

theorem run_append (t : Terminal) (ops1 ops2 : List Op) :
    Terminal.run t (ops1 ++ ops2) = Terminal.run (Terminal.run t ops1) ops2 := by
  simp [Terminal.run, List.foldl_append]

theorem apply_size (t : Terminal) (op : Op) :
    (t.apply op).width = t.width ∧ (t.apply op).height = t.height := by
  cases op with
  | SetCell x y ch fg bg =>
    simp only [Terminal.apply]
    split
    · exact ⟨rfl, rfl⟩
    · split
      · exact ⟨rfl, rfl⟩
      · exact ⟨rfl, rfl⟩
  | _ => exact ⟨rfl, rfl⟩

theorem run_size (t : Terminal) (ops : List Op) :
    (Terminal.run t ops).width = t.width ∧ (Terminal.run t ops).height = t.height := by
  induction ops generalizing t with
  | nil => exact ⟨rfl, rfl⟩
  | cons op ops ih =>
    have hrun : Terminal.run t (op :: ops) = Terminal.run (t.apply op) ops := rfl
    rw [hrun]
    exact ⟨(ih (t.apply op)).1.trans (apply_size t op).1,
      (ih (t.apply op)).2.trans (apply_size t op).2⟩

/-- A `SetCell` at a cell inside the terminal is carried out. -/
theorem apply_SetCell_inside (t : Terminal) (x y : Int) (ch : Char) (fg bg : Attribute)
    (hx : 0 ≤ x ∧ x < t.width) (hy : 0 ≤ y ∧ y < t.height) :
    (t.apply (Op.SetCell x y ch fg bg)).back x y = ⟨ch, fg, bg⟩ := by
  have h1 : ¬ (x < 0 ∨ x ≥ t.width) := by omega
  have h2 : ¬ (y < 0 ∨ y ≥ t.height) := by omega
  simp only [Terminal.apply, if_neg h1, if_neg h2]
  simp

/-- A `SetCell` leaves every other cell of the back buffer. -/
theorem apply_SetCell_other (t : Terminal) (x y a b : Int) (ch : Char) (fg bg : Attribute)
    (hne : ¬ (x = a ∧ y = b)) :
    (t.apply (Op.SetCell x y ch fg bg)).back a b = t.back a b := by
  have hne1 : ¬ (a = x ∧ b = y) := fun h => hne ⟨h.1.symm, h.2.symm⟩
  simp only [Terminal.apply]
  split
  · rfl
  · split
    · rfl
    · simp only [if_neg hne1]

/-- A `SetCell` outside the terminal is dropped. -/
theorem apply_SetCell_outside (t : Terminal) (x y : Int) (ch : Char) (fg bg : Attribute)
    (hout : ¬ (0 ≤ x ∧ x < t.width ∧ 0 ≤ y ∧ y < t.height)) :
    t.apply (Op.SetCell x y ch fg bg) = t := by
  simp only [Terminal.apply]
  split
  · rfl
  · split
    · rfl
    · exfalso
      omega

/-- The back buffer at a cell `(a, b)` inside the terminal, after a sequence of
calls, holds the last cell written there, or what it held before. -/
theorem back_run (t : Terminal) (ops : List Op) (a b : Int)
    (ha : 0 ≤ a ∧ a < t.width) (hb : 0 ≤ b ∧ b < t.height) :
    (Terminal.run t ops).back a b
      = ((ops.filterMap (writeAt a b)).getLast?).getD (t.back a b) := by
  induction ops generalizing t with
  | nil => rfl
  | cons op ops ih =>
    have hrun : Terminal.run t (op :: ops) = Terminal.run (t.apply op) ops := rfl
    have hsize := apply_size t op
    rw [hrun, ih (t.apply op) (by rw [hsize.1]; exact ha) (by rw [hsize.2]; exact hb)]
    cases op with
    | SetCell x y ch fg bg =>
      by_cases hxy : x = a ∧ y = b
      · have hw : writeAt a b (Op.SetCell x y ch fg bg) = some ⟨ch, fg, bg⟩ := by
          simp [writeAt, hxy]
        have hcell : (t.apply (Op.SetCell x y ch fg bg)).back a b = ⟨ch, fg, bg⟩ := by
          obtain ⟨rfl, rfl⟩ := hxy
          exact apply_SetCell_inside t x y ch fg bg ha hb
        rw [List.filterMap_cons_some hw, List.getLast?_cons, hcell]
        rfl
      · have hw : writeAt a b (Op.SetCell x y ch fg bg) = none := by
          simp [writeAt, hxy]
        rw [List.filterMap_cons_none hw, apply_SetCell_other t x y a b ch fg bg hxy]
    | _ => rfl

/-- The back buffer at coordinates outside the terminal is never changed. -/
theorem back_run_outside (t : Terminal) (ops : List Op) (a b : Int)
    (hout : ¬ (0 ≤ a ∧ a < t.width ∧ 0 ≤ b ∧ b < t.height)) :
    (Terminal.run t ops).back a b = t.back a b := by
  induction ops generalizing t with
  | nil => rfl
  | cons op ops ih =>
    have hrun : Terminal.run t (op :: ops) = Terminal.run (t.apply op) ops := rfl
    have hsize := apply_size t op
    rw [hrun, ih (t.apply op) (by rw [hsize.1, hsize.2]; exact hout)]
    cases op with
    | SetCell x y ch fg bg =>
      by_cases hxy : x = a ∧ y = b
      · obtain ⟨rfl, rfl⟩ := hxy
        rw [apply_SetCell_outside t x y ch fg bg hout]
      · exact apply_SetCell_other t x y a b ch fg bg hxy
    | _ => rfl

theorem writeAt_SetCell (a b x y : Int) (ch : Char) (fg bg : Attribute) :
    writeAt a b (Op.SetCell x y ch fg bg)
      = if x = a ∧ y = b then some ⟨ch, fg, bg⟩ else none := rfl

theorem writeAt_drawBoardPixel_left (p : Pixel) (x y : Int) :
    (drawBoardPixel p).filterMap (writeAt (originXBoard + 2 * x) (originYBoard + y))
      = if p.X = x ∧ p.Y = y then [pixelCell p.Color] else [] := by
  have e2 : writeAt (originXBoard + 2 * x) (originYBoard + y)
      (Op.SetCell (originXBoard + (2 * p.X + 1)) (originYBoard + p.Y) ' ' p.Color p.Color)
      = none := by
    rw [writeAt_SetCell, if_neg]
    intro hc
    omega
  by_cases h : p.X = x ∧ p.Y = y
  · have e1 : writeAt (originXBoard + 2 * x) (originYBoard + y)
        (Op.SetCell (originXBoard + 2 * p.X) (originYBoard + p.Y) ' ' p.Color p.Color)
        = some (pixelCell p.Color) := by
      rw [writeAt_SetCell, if_pos ⟨by rw [h.1], by rw [h.2]⟩]
      rfl
    rw [drawBoardPixel, List.filterMap_cons_some e1, List.filterMap_cons_none e2, if_pos h]
    rfl
  · have e1 : writeAt (originXBoard + 2 * x) (originYBoard + y)
        (Op.SetCell (originXBoard + 2 * p.X) (originYBoard + p.Y) ' ' p.Color p.Color)
        = none := by
      rw [writeAt_SetCell, if_neg]
      intro hc
      exact h ⟨by omega, by omega⟩
    rw [drawBoardPixel, List.filterMap_cons_none e1, List.filterMap_cons_none e2, if_neg h]
    rfl

theorem writeAt_drawBoardPixel_right (p : Pixel) (x y : Int) :
    (drawBoardPixel p).filterMap (writeAt (originXBoard + (2 * x + 1)) (originYBoard + y))
      = if p.X = x ∧ p.Y = y then [pixelCell p.Color] else [] := by
  have e1 : writeAt (originXBoard + (2 * x + 1)) (originYBoard + y)
      (Op.SetCell (originXBoard + 2 * p.X) (originYBoard + p.Y) ' ' p.Color p.Color)
      = none := by
    rw [writeAt_SetCell, if_neg]
    intro hc
    omega
  by_cases h : p.X = x ∧ p.Y = y
  · have e2 : writeAt (originXBoard + (2 * x + 1)) (originYBoard + y)
        (Op.SetCell (originXBoard + (2 * p.X + 1)) (originYBoard + p.Y) ' ' p.Color p.Color)
        = some (pixelCell p.Color) := by
      rw [writeAt_SetCell, if_pos ⟨by rw [h.1], by rw [h.2]⟩]
      rfl
    rw [drawBoardPixel, List.filterMap_cons_none e1, List.filterMap_cons_some e2, if_pos h]
    rfl
  · have e2 : writeAt (originXBoard + (2 * x + 1)) (originYBoard + y)
        (Op.SetCell (originXBoard + (2 * p.X + 1)) (originYBoard + p.Y) ' ' p.Color p.Color)
        = none := by
      rw [writeAt_SetCell, if_neg]
      intro hc
      exact h ⟨by omega, by omega⟩
    rw [drawBoardPixel, List.filterMap_cons_none e1, List.filterMap_cons_none e2, if_neg h]
    rfl

theorem getLast?_of_all_eq {α : Type} (l : List α) (c : α) (hne : l ≠ [])
    (hall : ∀ v ∈ l, v = c) : l.getLast? = some c := by
  cases hl : l.getLast? with
  | none => exact absurd (List.getLast?_eq_none_iff.mp hl) hne
  | some v => rw [hall v (List.mem_of_getLast?_eq_some hl)]

/-- The writes of the pixel list at a cell of position `(x, y)`: one per pixel
of the list at that position, in order. -/
theorem writeAt_pixels (pixels : List Pixel) (a b x y : Int)
    (hcol : ∀ p : Pixel, (drawBoardPixel p).filterMap (writeAt a b)
      = if p.X = x ∧ p.Y = y then [pixelCell p.Color] else []) :
    ((pixels.map drawBoardPixel).flatten).filterMap (writeAt a b)
      = (pixels.filter (fun p => p.X = x ∧ p.Y = y)).map (fun p => pixelCell p.Color) := by
  induction pixels with
  | nil => rfl
  | cons p rest ih =>
    rw [List.map_cons, List.flatten_cons, List.filterMap_append, ih, hcol p]
    by_cases h : p.X = x ∧ p.Y = y
    · rw [if_pos h, List.filter_cons_of_pos (by simpa using h)]
      rfl
    · rw [if_neg h, List.filter_cons_of_neg (by simpa using h)]
      rfl

/-- The writes of the loops that clear the board at a cell of position
`(x, y)` inside the board: at least one, all of the background colour. -/
theorem writeAt_clear_board (W H a b x y : Int) (hx : 0 ≤ x ∧ x < W) (hy : 0 ≤ y ∧ y < H)
    (hcol : ∀ p : Pixel, (drawBoardPixel p).filterMap (writeAt a b)
      = if p.X = x ∧ p.Y = y then [pixelCell p.Color] else []) :
    ((forLoop 0 W (fun x1 => forLoop 0 H (fun y1 =>
        drawBoardPixel { X := x1, Y := y1, Color := ColorDefault }))).filterMap
          (writeAt a b)).getLast? = some (pixelCell ColorDefault) := by
  apply getLast?_of_all_eq
  · intro hnil
    have hmem : pixelCell ColorDefault ∈
        (drawBoardPixel { X := x, Y := y, Color := ColorDefault }).filterMap (writeAt a b) := by
      rw [hcol, if_pos ⟨rfl, rfl⟩]
      exact List.mem_singleton.mpr rfl
    obtain ⟨op, hop, hw⟩ := List.mem_filterMap.mp hmem
    have hop1 : op ∈ forLoop 0 W (fun x1 => forLoop 0 H (fun y1 =>
        drawBoardPixel { X := x1, Y := y1, Color := ColorDefault })) :=
      mem_forLoop.mpr ⟨x, hx.1, hx.2, mem_forLoop.mpr ⟨y, hy.1, hy.2, hop⟩⟩
    have : pixelCell ColorDefault ∈ ([] : List Cell) := by
      rw [← hnil]
      exact List.mem_filterMap.mpr ⟨op, hop1, hw⟩
    exact absurd this (List.not_mem_nil _)
  · intro v hv
    obtain ⟨op, hop, hw⟩ := List.mem_filterMap.mp hv
    obtain ⟨x1, _, _, hop⟩ := mem_forLoop.mp hop
    obtain ⟨y1, _, _, hop⟩ := mem_forLoop.mp hop
    have hv1 : v ∈ (drawBoardPixel { X := x1, Y := y1, Color := ColorDefault }).filterMap
        (writeAt a b) := List.mem_filterMap.mpr ⟨op, hop, hw⟩
    rw [hcol] at hv1
    split at hv1
    · exact List.mem_singleton.mp hv1
    · exact absurd hv1 (List.not_mem_nil _)

theorem writeAt_none_of_row {ops : List Op} {a b : Int}
    (h : ∀ op ∈ ops, ∃ x y ch fg bg, op = Op.SetCell x y ch fg bg ∧ y < b) :
    ops.filterMap (writeAt a b) = [] := by
  rw [List.filterMap_eq_nil_iff]
  intro op hop
  obtain ⟨x, y, ch, fg, bg, rfl, hy⟩ := h op hop
  rw [writeAt_SetCell, if_neg]
  intro hc
  omega

theorem writeAt_status (msg : String) (x y a b : Int) (color : Attribute) (hy : y < b) :
    (writeMessage msg x y color).filterMap (writeAt a b) = [] := by
  apply writeAt_none_of_row
  intro op hop
  obtain ⟨x1, ch, _, rfl⟩ := mem_writeRunes hop
  exact ⟨x1, y, ch, _, _, rfl, hy⟩

theorem row_drawNextPiecePixel {p : Pixel} {op : Op} {b : Int}
    (hp : p.Y < 4) (hb : 10 ≤ b) (hop : op ∈ drawNextPiecePixel p) :
    ∃ x y ch fg bg, op = Op.SetCell x y ch fg bg ∧ y < b := by
  simp only [drawNextPiecePixel, List.mem_cons, List.mem_singleton, List.not_mem_nil,
    or_false] at hop
  have hrow : originYNextPiece + p.Y < b := by
    have : originYNextPiece = 6 := rfl
    omega
  rcases hop with rfl | rfl
  · exact ⟨_, _, _, _, _, rfl, hrow⟩
  · exact ⟨_, _, _, _, _, rfl, hrow⟩

/-- The writes of a frame at a cell of board position `(x, y)`: those of the
clearing loops, then those of the pixel list. -/
theorem writeAt_renderFrame (r : TetrisUi) (gm : GameState) (a b : Int)
    (hb : 10 ≤ b)
    (hnext : ∀ p ∈ gm.NextPiece, 0 ≤ p.X ∧ p.X < 4 ∧ 0 ≤ p.Y ∧ p.Y < 4) :
    (renderFrame r gm).filterMap (writeAt a b)
      = (forLoop 0 r.board.Width (fun x1 => forLoop 0 r.board.Height (fun y1 =>
          drawBoardPixel { X := x1, Y := y1, Color := ColorDefault }))).filterMap (writeAt a b)
        ++ ((gm.Pixels.map drawBoardPixel).flatten).filterMap (writeAt a b) := by
  have hclearNext : (forLoop 0 4 (fun x1 => forLoop 0 4 (fun y1 =>
      drawNextPiecePixel { X := x1, Y := y1, Color := ColorDefault }))).filterMap
        (writeAt a b) = [] := by
    apply writeAt_none_of_row
    intro op hop
    obtain ⟨x1, _, _, hop⟩ := mem_forLoop.mp hop
    obtain ⟨y1, _, hy1, hop⟩ := mem_forLoop.mp hop
    exact row_drawNextPiecePixel hy1 hb hop
  have hnextPiece : ((gm.NextPiece.map drawNextPiecePixel).flatten).filterMap
      (writeAt a b) = [] := by
    apply writeAt_none_of_row
    intro op hop
    simp only [List.mem_flatten, List.mem_map] at hop
    obtain ⟨l, ⟨p, hp, rfl⟩, hop⟩ := hop
    exact row_drawNextPiecePixel (hnext p hp).2.2.2 hb hop
  have hflush : [Op.Flush].filterMap (writeAt a b) = [] := rfl
  unfold renderFrame
  simp only [List.filterMap_append, hclearNext, hnextPiece, hflush,
    writeAt_status _ _ 3 a b _ (by omega : (3 : Int) < b),
    writeAt_status _ _ 4 a b _ (by omega : (4 : Int) < b),
    writeAt_status _ _ 5 a b _ (by omega : (5 : Int) < b),
    writeAt_status _ _ 6 a b _ (by omega : (6 : Int) < b), List.append_nil]

/-- After a frame, a cell of board position `(x, y)` that lies inside the
terminal holds the colour of the last pixel of the snapshot at that position,
or the background colour. -/
theorem back_renderFrame (r : TetrisUi) (t : Terminal) (gm : GameState) (a x y : Int)
    (hx : 0 ≤ x ∧ x < r.board.Width) (hy : 0 ≤ y ∧ y < r.board.Height)
    (ha : 0 ≤ a ∧ a < t.width) (hrow : originYBoard + y < t.height)
    (hnext : ∀ p ∈ gm.NextPiece, 0 ≤ p.X ∧ p.X < 4 ∧ 0 ≤ p.Y ∧ p.Y < 4)
    (hcol : ∀ p : Pixel, (drawBoardPixel p).filterMap (writeAt a (originYBoard + y))
      = if p.X = x ∧ p.Y = y then [pixelCell p.Color] else []) :
    (Terminal.run t (renderFrame r gm)).back a (originYBoard + y)
      = pixelCell (lastColorAt gm.Pixels x y) := by
  have hb : 10 ≤ originYBoard + y := by
    have : originYBoard = 10 := rfl
    omega
  rw [back_run t _ a _ ha ⟨by omega, hrow⟩, writeAt_renderFrame r gm a _ hb hnext,
    List.getLast?_append, writeAt_clear_board _ _ a _ x y hx hy hcol,
    writeAt_pixels gm.Pixels a _ x y hcol, List.getLast?_map]
  unfold lastColorAt
  cases (gm.Pixels.filter (fun p => p.X = x ∧ p.Y = y)).getLast? with
  | none => rfl
  | some p => rfl

theorem front_renderFrame (r : TetrisUi) (t : Terminal) (gm : GameState) :
    (Terminal.run t (renderFrame r gm)).front = (Terminal.run t (renderFrame r gm)).back := by
  obtain ⟨cells, heq, _⟩ := renderFrame_split r gm
  rw [heq, run_append]
  rfl

theorem lastColorAt_single (C : Attribute) (x y : Int) :
    lastColorAt [{ X := 0, Y := 0, Color := C }] x y
      = if x = 0 ∧ y = 0 then C else ColorDefault := by
  unfold lastColorAt
  by_cases h : x = 0 ∧ y = 0
  · obtain ⟨rfl, rfl⟩ := h
    rfl
  · have h1 : ¬ ((0 : Int) = x ∧ (0 : Int) = y) := fun hc => h ⟨hc.1.symm, hc.2.symm⟩
    rw [List.filter_cons_of_neg (by simpa using h1), if_neg h]
    rfl

theorem ListenToBoardUpdates_single (r : TetrisUi) (gm : GameState)
    (hgo : gm.GameOver = false) : ListenToBoardUpdates r [gm] = renderFrame r gm := by
  simp [ListenToBoardUpdates, hgo]

/-- The left terminal cell of the board position `(x, y)` after a frame, when
it lies inside the terminal: in the back buffer and on the terminal. -/
theorem left_cell_after_frame (r : TetrisUi) (t : Terminal) (gm : GameState)
    (hgo : gm.GameOver = false)
    (hnext : ∀ p ∈ gm.NextPiece, 0 ≤ p.X ∧ p.X < 4 ∧ 0 ≤ p.Y ∧ p.Y < 4)
    (x y : Int) (hx : 0 ≤ x ∧ x < r.board.Width) (hy : 0 ≤ y ∧ y < r.board.Height)
    (hrow : 10 + y < t.height) (hcolumn : 2 + 2 * x < t.width) :
    (Terminal.run t (ListenToBoardUpdates r [gm])).back (2 + 2 * x) (10 + y)
        = pixelCell (lastColorAt gm.Pixels x y)
    ∧ (Terminal.run t (ListenToBoardUpdates r [gm])).front (2 + 2 * x) (10 + y)
        = pixelCell (lastColorAt gm.Pixels x y) := by
  have h1 : (2 : Int) + 2 * x = originXBoard + 2 * x := rfl
  have h3 : (10 : Int) + y = originYBoard + y := rfl
  have hl := back_renderFrame r t gm (originXBoard + 2 * x) x y hx hy
    ⟨by rw [← h1]; omega, by rw [← h1]; exact hcolumn⟩ (by rw [← h3]; exact hrow) hnext
    (fun p => writeAt_drawBoardPixel_left p x y)
  rw [ListenToBoardUpdates_single r gm hgo, front_renderFrame, h1, h3]
  exact ⟨hl, hl⟩

/-- The right terminal cell of the board position `(x, y)` after a frame, when
it lies inside the terminal: in the back buffer and on the terminal. -/
theorem right_cell_after_frame (r : TetrisUi) (t : Terminal) (gm : GameState)
    (hgo : gm.GameOver = false)
    (hnext : ∀ p ∈ gm.NextPiece, 0 ≤ p.X ∧ p.X < 4 ∧ 0 ≤ p.Y ∧ p.Y < 4)
    (x y : Int) (hx : 0 ≤ x ∧ x < r.board.Width) (hy : 0 ≤ y ∧ y < r.board.Height)
    (hrow : 10 + y < t.height) (hcolumn : 2 + 2 * x + 1 < t.width) :
    (Terminal.run t (ListenToBoardUpdates r [gm])).back (2 + 2 * x + 1) (10 + y)
        = pixelCell (lastColorAt gm.Pixels x y)
    ∧ (Terminal.run t (ListenToBoardUpdates r [gm])).front (2 + 2 * x + 1) (10 + y)
        = pixelCell (lastColorAt gm.Pixels x y) := by
  have h2 : (2 : Int) + 2 * x + 1 = originXBoard + (2 * x + 1) := by
    have : originXBoard = 2 := rfl
    omega
  have h3 : (10 : Int) + y = originYBoard + y := rfl
  have hr := back_renderFrame r t gm (originXBoard + (2 * x + 1)) x y hx hy
    ⟨by rw [← h2]; omega, by rw [← h2]; exact hcolumn⟩ (by rw [← h3]; exact hrow) hnext
    (fun p => writeAt_drawBoardPixel_right p x y)
  rw [ListenToBoardUpdates_single r gm hgo, front_renderFrame, h2, h3]
  exact ⟨hr, hr⟩

/-- C3, as stated, fails: on a terminal of 80 columns and 24 rows, with the
board of 10 by 20 and a snapshot that meets the conditions of the claim and
has a pixel of colour 6 at the board position `(9, 19)`, the terminal cell
`(2 + 2 * 9, 10 + 19)` lies below the last row of the terminal, the write is
dropped, and the cell buffer holds there what it held before, not colour 6. -/
theorem board_cell_outside_terminal_unwritten :
    lastRowFrame.GameOver = false
    ∧ (∀ p ∈ lastRowFrame.Pixels,
        0 ≤ p.X ∧ p.X < sampleUi.board.Width ∧ 0 ≤ p.Y ∧ p.Y < sampleUi.board.Height)
    ∧ (∀ p ∈ lastRowFrame.NextPiece, 0 ≤ p.X ∧ p.X < 4 ∧ 0 ≤ p.Y ∧ p.Y < 4)
    ∧ ((0 : Int) ≤ 9 ∧ 9 < sampleUi.board.Width ∧ (0 : Int) ≤ 19 ∧ 19 < sampleUi.board.Height)
    ∧ lastColorAt lastRowFrame.Pixels 9 19 = 6
    ∧ sampleTerminal.height ≤ 10 + 19
    ∧ (Terminal.run sampleTerminal (ListenToBoardUpdates sampleUi [lastRowFrame])).back
          (2 + 2 * 9) (10 + 19) = ⟨'#', 7, 7⟩
    ∧ (Terminal.run sampleTerminal (ListenToBoardUpdates sampleUi [lastRowFrame])).back
          (2 + 2 * 9) (10 + 19)
        ≠ ⟨' ', lastColorAt lastRowFrame.Pixels 9 19, lastColorAt lastRowFrame.Pixels 9 19⟩ := by
  have hback : (Terminal.run sampleTerminal (ListenToBoardUpdates sampleUi [lastRowFrame])).back
      (2 + 2 * 9) (10 + 19) = ⟨'#', 7, 7⟩ :=
    back_run_outside sampleTerminal _ (2 + 2 * 9) (10 + 19) (by decide)
  refine ⟨rfl, by decide, by decide, by decide, by decide, by decide, hback, ?_⟩
  rw [hback]
  decide

/-- C3, amended: after one pass of `ListenToBoardUpdates` over a snapshot that
is not game over, whose pixels lie inside the board and whose next-piece pixels
lie in the 4 by 4 preview, from any terminal size and state, each of the
terminal cells `(2 + 2x, 10 + y)` and `(2 + 2x + 1, 10 + y)` of a board position
`(x, y)` that lies inside the terminal holds a blank in the colour of the last
pixel of `Pixels` at `(x, y)`, or in `ColorDefault` when there is none, in the
back buffer and on the terminal; writes outside the terminal are dropped; for
`Pixels = [{0, 0, C}]` on a terminal with more than 3 columns and 10 rows the
cells `(2, 10)` and `(3, 10)` hold `C` and the cells inside the terminal of
every other board position hold `ColorDefault`. -/
theorem board_cells_inside_terminal (r : TetrisUi) (t : Terminal) (gm : GameState)
    (hgo : gm.GameOver = false)
    (hpix : ∀ p ∈ gm.Pixels,
      0 ≤ p.X ∧ p.X < r.board.Width ∧ 0 ≤ p.Y ∧ p.Y < r.board.Height)
    (hnext : ∀ p ∈ gm.NextPiece, 0 ≤ p.X ∧ p.X < 4 ∧ 0 ≤ p.Y ∧ p.Y < 4) :
    (∀ x y : Int, 0 ≤ x → x < r.board.Width → 0 ≤ y → y < r.board.Height →
      10 + y < t.height →
      (2 + 2 * x < t.width →
        (Terminal.run t (ListenToBoardUpdates r [gm])).back (2 + 2 * x) (10 + y)
            = ⟨' ', lastColorAt gm.Pixels x y, lastColorAt gm.Pixels x y⟩
        ∧ (Terminal.run t (ListenToBoardUpdates r [gm])).front (2 + 2 * x) (10 + y)
            = ⟨' ', lastColorAt gm.Pixels x y, lastColorAt gm.Pixels x y⟩)
      ∧ (2 + 2 * x + 1 < t.width →
        (Terminal.run t (ListenToBoardUpdates r [gm])).back (2 + 2 * x + 1) (10 + y)
            = ⟨' ', lastColorAt gm.Pixels x y, lastColorAt gm.Pixels x y⟩
        ∧ (Terminal.run t (ListenToBoardUpdates r [gm])).front (2 + 2 * x + 1) (10 + y)
            = ⟨' ', lastColorAt gm.Pixels x y, lastColorAt gm.Pixels x y⟩))
    ∧ (∀ a b : Int, ¬ (0 ≤ a ∧ a < t.width ∧ 0 ≤ b ∧ b < t.height) →
        (Terminal.run t (ListenToBoardUpdates r [gm])).back a b = t.back a b)
    ∧ (∀ C : Attribute, gm.Pixels = [{ X := 0, Y := 0, Color := C }] →
        3 < t.width → 10 < t.height →
        (Terminal.run t (ListenToBoardUpdates r [gm])).back 2 10 = ⟨' ', C, C⟩
        ∧ (Terminal.run t (ListenToBoardUpdates r [gm])).back 3 10 = ⟨' ', C, C⟩
        ∧ ∀ x y : Int, 0 ≤ x → x < r.board.Width → 0 ≤ y → y < r.board.Height →
            10 + y < t.height → ¬ (x = 0 ∧ y = 0) →
            (2 + 2 * x < t.width →
              (Terminal.run t (ListenToBoardUpdates r [gm])).back (2 + 2 * x) (10 + y)
                = ⟨' ', ColorDefault, ColorDefault⟩)
            ∧ (2 + 2 * x + 1 < t.width →
              (Terminal.run t (ListenToBoardUpdates r [gm])).back (2 + 2 * x + 1) (10 + y)
                = ⟨' ', ColorDefault, ColorDefault⟩)) := by
  refine ⟨fun x y hx0 hx1 hy0 hy1 hrow =>
      ⟨fun hc => left_cell_after_frame r t gm hgo hnext x y ⟨hx0, hx1⟩ ⟨hy0, hy1⟩ hrow hc,
       fun hc => right_cell_after_frame r t gm hgo hnext x y ⟨hx0, hx1⟩ ⟨hy0, hy1⟩ hrow hc⟩,
    fun a b hout => back_run_outside t _ a b hout, ?_⟩
  intro C hC hwidth hheight
  have h00 := hpix { X := 0, Y := 0, Color := C } (by rw [hC]; exact List.mem_singleton.mpr rfl)
  have hleft := left_cell_after_frame r t gm hgo hnext 0 0 ⟨h00.1, h00.2.1⟩
    ⟨h00.2.2.1, h00.2.2.2⟩ (by omega) (by omega)
  have hright := right_cell_after_frame r t gm hgo hnext 0 0 ⟨h00.1, h00.2.1⟩
    ⟨h00.2.2.1, h00.2.2.2⟩ (by omega) (by omega)
  rw [hC, lastColorAt_single, if_pos ⟨rfl, rfl⟩] at hleft hright
  refine ⟨hleft.1, hright.1, ?_⟩
  intro x y hx0 hx1 hy0 hy1 hrow hne
  constructor
  · intro hc
    have hcell := left_cell_after_frame r t gm hgo hnext x y ⟨hx0, hx1⟩ ⟨hy0, hy1⟩ hrow hc
    rw [hC, lastColorAt_single, if_neg hne] at hcell
    exact hcell.1
  · intro hc
    have hcell := right_cell_after_frame r t gm hgo hnext x y ⟨hx0, hx1⟩ ⟨hy0, hy1⟩ hrow hc
    rw [hC, lastColorAt_single, if_neg hne] at hcell
    exact hcell.1

/-- C3 amended, at a concrete snapshot on the board of 10 by 20 and the
terminal of 80 by 24: two pixels at `(0, 0)`, the later one of colour 5. -/
theorem board_cells_inside_terminal_witness :
    sampleFrame.GameOver = false
    ∧ (∀ p ∈ sampleFrame.Pixels,
        0 ≤ p.X ∧ p.X < sampleUi.board.Width ∧ 0 ≤ p.Y ∧ p.Y < sampleUi.board.Height)
    ∧ (∀ p ∈ sampleFrame.NextPiece, 0 ≤ p.X ∧ p.X < 4 ∧ 0 ≤ p.Y ∧ p.Y < 4)
    ∧ lastColorAt sampleFrame.Pixels 0 0 = 5
    ∧ (Terminal.run sampleTerminal (ListenToBoardUpdates sampleUi [sampleFrame])).back
          (2 + 2 * 0) (10 + 0)
        = ⟨' ', lastColorAt sampleFrame.Pixels 0 0, lastColorAt sampleFrame.Pixels 0 0⟩ :=
  ⟨by decide, by decide, by decide, by decide,
    (((board_cells_inside_terminal sampleUi sampleTerminal sampleFrame (by decide) (by decide)
      (by decide)).1 0 0 (by decide) (by decide) (by decide) (by decide) (by decide)).1
        (by decide)).1⟩

/-! ## `drawBorder` -/

/-- C10, at `drawBorder(1, 0, 2, 2)`: the code writes the four corners and the
two cells of the left and right columns, and no cell at `(2, 0)` or `(2, 2)`,
which lie strictly between the corners of the top and the bottom row and
should hold `HORIZONTAL`. -/
theorem drawBorder_misses_horizontal :
    drawBorder 1 0 2 2
      = [Op.SetCell 1 0 TOPLEFT ColorDefault ColorDefault,
         Op.SetCell 3 0 TOPRIGHT ColorDefault ColorDefault,
         Op.SetCell 1 1 VERTICAL ColorDefault ColorDefault,
         Op.SetCell 3 1 VERTICAL ColorDefault ColorDefault,
         Op.SetCell 1 2 BOTTOMLEFT ColorDefault ColorDefault,
         Op.SetCell 3 2 BOTTOMRIGHT ColorDefault ColorDefault]
    ∧ borderGlyph 1 0 2 2 2 0 = some HORIZONTAL
    ∧ borderGlyph 1 0 2 2 2 2 = some HORIZONTAL
    ∧ (∀ ch fg bg, Op.SetCell 2 0 ch fg bg ∉ drawBorder 1 0 2 2)
    ∧ (∀ ch fg bg, Op.SetCell 2 2 ch fg bg ∉ drawBorder 1 0 2 2) := by
  have h : drawBorder 1 0 2 2
      = [Op.SetCell 1 0 TOPLEFT ColorDefault ColorDefault,
         Op.SetCell 3 0 TOPRIGHT ColorDefault ColorDefault,
         Op.SetCell 1 1 VERTICAL ColorDefault ColorDefault,
         Op.SetCell 3 1 VERTICAL ColorDefault ColorDefault,
         Op.SetCell 1 2 BOTTOMLEFT ColorDefault ColorDefault,
         Op.SetCell 3 2 BOTTOMRIGHT ColorDefault ColorDefault] := by decide
  refine ⟨h, by decide, by decide, ?_, ?_⟩
  · intro ch fg bg
    rw [h]
    simp
  · intro ch fg bg
    rw [h]
    simp

/-- For the rectangle at the origin, as `StartGame` draws it, `drawBorder`
writes exactly the perimeter cells with their glyphs, in `ColorDefault`. -/
theorem drawBorder_origin (width height x y : Int) (ch : Char) (fg bg : Attribute)
    (hw : 1 ≤ width) (hh : 1 ≤ height) :
    Op.SetCell x y ch fg bg ∈ drawBorder 0 0 width height
      ↔ (borderGlyph 0 0 width height x y = some ch ∧ fg = ColorDefault ∧ bg = ColorDefault) := by
  unfold drawBorder
  simp only [List.mem_append, List.mem_cons, List.mem_singleton, List.not_mem_nil, or_false,
    mem_forLoop, Op.SetCell.injEq, zero_add]
  unfold borderGlyph
  simp only [zero_add]
  constructor
  · rintro ((((h | h) | ⟨i, h1, h2, h | h⟩) | ⟨i, h1, h2, h | h⟩) | (h | h)) <;>
      obtain ⟨rfl, rfl, rfl, rfl, rfl⟩ := h <;>
      refine ⟨?_, rfl, rfl⟩ <;>
      split_ifs <;> first | rfl | omega
  · rintro ⟨hg, rfl, rfl⟩
    split_ifs at hg with c1 c2 c3 c4 c5 c6 <;>
      simp only [Option.some.injEq] at hg <;> try subst hg
    · obtain ⟨rfl, rfl⟩ := c1
      simp
    · obtain ⟨rfl, rfl⟩ := c2
      simp
    · obtain ⟨rfl, rfl⟩ := c3
      simp
    · obtain ⟨rfl, rfl⟩ := c4
      simp
    · obtain ⟨hy | hy, hx1, hx2⟩ := c5
      · subst hy
        exact Or.inl (Or.inl (Or.inr ⟨x, by omega, hx2, Or.inl ⟨rfl, rfl, rfl, rfl, rfl⟩⟩))
      · subst hy
        exact Or.inl (Or.inl (Or.inr ⟨x, by omega, hx2, Or.inr ⟨rfl, rfl, rfl, rfl, rfl⟩⟩))
    · obtain ⟨hx | hx, hy1, hy2⟩ := c6
      · subst hx
        exact Or.inl (Or.inr ⟨y, by omega, hy2, Or.inl ⟨rfl, rfl, rfl, rfl, rfl⟩⟩)
      · subst hx
        exact Or.inl (Or.inr ⟨y, by omega, hy2, Or.inr ⟨rfl, rfl, rfl, rfl, rfl⟩⟩)

end TetrisClient
